import Mathlib

/-!
Shallow embedding of the chunk meshing subsystem of the voxel engine:
the voxel/chunk data model (`Chunk.cpp`), the world coordinate transforms
(`VoxelGame.cpp`), and the greedy mesher (`VoxelRenderer.cpp`), together
with proofs of the specified properties.

C++ `int` is modelled as `ℤ` (no arithmetic here approaches 2^31, and the
claims are about mathematical values); C++ truncating division `/` and
remainder `%` on `int` are modelled by `Int.tdiv` / `Int.tmod`.  Loop
counters that range over `[0, size)` are modelled as `ℕ` and cast to `ℤ`
where the source passes them to `int` parameters.  `float` vertex data is
modelled over `ℚ` (all operations used are additions and multiplications
of small values, and no claim depends on rounding).
-/

namespace VoxelSpec

/-- Embeds `enum class VoxelType` from `VoxelRenderer.hpp`. -/
inductive VoxelType where
  | Air
  | Grass
  | Dirt
  | Stone
  | Sand
  | Water
  | Wood
  | Leaves
deriving DecidableEq, Repr

/-- Embeds `VoxelFace::Direction` from `VoxelRenderer.hpp`. -/
inductive Direction where
  | Front
  | Back
  | Top
  | Bottom
  | Right
  | Left
deriving DecidableEq, Repr

/-- Embeds `Chunk::CHUNK_SIZE_X`. -/
def CHUNK_SIZE_X : ℤ := 16

/-- Embeds `Chunk::CHUNK_SIZE_Y`. -/
def CHUNK_SIZE_Y : ℤ := 256

/-- Embeds `Chunk::CHUNK_SIZE_Z`. -/
def CHUNK_SIZE_Z : ℤ := 16

/-- Embeds `Chunk::isValidPosition` (`Chunk.cpp`). -/
def isValidPosition (x y z : ℤ) : Bool :=
  decide (0 ≤ x) && decide (x < CHUNK_SIZE_X) &&
  decide (0 ≤ y) && decide (y < CHUNK_SIZE_Y) &&
  decide (0 ≤ z) && decide (z < CHUNK_SIZE_Z)

/-- Flat index `(y * CHUNK_SIZE_Z + z) * CHUNK_SIZE_X + x` used by
`Chunk::setVoxel` / `Chunk::getVoxel` into `m_Voxels`. -/
def voxelIndex (x y z : ℤ) : ℤ :=
  (y * CHUNK_SIZE_Z + z) * CHUNK_SIZE_X + x

/-- The own-storage part of a `Chunk`: its position (`m_Position`), its voxel
array (`m_Voxels`, modelled as a function from flat indices), and the
emptiness flag `m_Empty`.  The neighbor map is kept separately in `Chunk`
because the C++ neighbor pointers are only ever used through `getVoxel`,
which touches none of the neighbor's own links. -/
structure ChunkCore where
  position : ℤ × ℤ × ℤ
  voxels : ℤ → VoxelType
  mEmpty : Bool

/-- Embeds `Chunk::Chunk` constructor: voxels filled with Air.
Modelled from the spec: the header revision declaring `m_Empty` is not among
the sources (the available `Chunk.hpp` predates the flag, while `Chunk.cpp`
uses it); per the spec the flag means "definitely has no opaque voxels",
which holds for the freshly constructed all-air chunk, so it starts `true`. -/
def ChunkCore.init (pos : ℤ × ℤ × ℤ) : ChunkCore :=
  { position := pos, voxels := fun _ => VoxelType.Air, mEmpty := true }

/-- Embeds `Chunk::setVoxel` (`Chunk.cpp`): out-of-bounds writes are silently
ignored; an in-bounds non-air write clears `m_Empty`. -/
def ChunkCore.setVoxel (c : ChunkCore) (x y z : ℤ) (t : VoxelType) : ChunkCore :=
  if isValidPosition x y z then
    { c with
      voxels := Function.update c.voxels (voxelIndex x y z) t,
      mEmpty := if t ≠ VoxelType.Air then false else c.mEmpty }
  else c

/-- Embeds `Chunk::getVoxel` (`Chunk.cpp`): out-of-bounds reads return Air. -/
def ChunkCore.getVoxel (c : ChunkCore) (x y z : ℤ) : VoxelType :=
  if isValidPosition x y z then c.voxels (voxelIndex x y z) else VoxelType.Air

/-- Embeds `Chunk::isEmpty` (`Chunk.cpp`). -/
def ChunkCore.isEmpty (c : ChunkCore) : Bool := c.mEmpty

/-- A chunk together with its neighbor map `m_Neighbors`
(`std::unordered_map<int, Chunk*>`; an absent key and a null pointer both
become `none`). -/
structure Chunk where
  core : ChunkCore
  neighbors : ℤ → Option ChunkCore

/-- The direction key `(dx+1)*100 + (dy+1)*10 + (dz+1)` used by
`Chunk::setNeighbor` and `Chunk::getVoxelWorldSpace`. -/
def neighborKey (dx dy dz : ℤ) : ℤ :=
  (dx + 1) * 100 + (dy + 1) * 10 + (dz + 1)

/-- Embeds `Chunk::setNeighbor` (`Chunk.cpp`). -/
def Chunk.setNeighbor (c : Chunk) (d : ℤ × ℤ × ℤ) (n : Option ChunkCore) : Chunk :=
  { c with neighbors := Function.update c.neighbors (neighborKey d.1 d.2.1 d.2.2) n }

/-- One axis of the out-of-range adjustment in `Chunk::getVoxelWorldSpace`
(the same `if (t < 0) … else if (t >= S) …` block is written out once per
axis in the source): the neighbor-direction component and the shifted
coordinate. -/
def wrapAxis (S t : ℤ) : ℤ × ℤ :=
  if t < 0 then (-1, t + S)
  else if t ≥ S then (1, t - S)
  else (0, t)

/-- Embeds `Chunk::getVoxelWorldSpace` (`Chunk.cpp`): in-bounds positions use the
local lookup; otherwise each out-of-range axis contributes ±1 to the
neighbor direction and is shifted by one chunk size, and the (possibly
diagonal) neighbor is queried if linked, else the result is Air. -/
def Chunk.getVoxelWorldSpace (c : Chunk) (x y z : ℤ) : VoxelType :=
  if isValidPosition x y z then c.core.getVoxel x y z
  else
    let px := wrapAxis CHUNK_SIZE_X x
    let py := wrapAxis CHUNK_SIZE_Y y
    let pz := wrapAxis CHUNK_SIZE_Z z
    match c.neighbors (neighborKey px.1 py.1 pz.1) with
    | some n => n.getVoxel px.2 py.2 pz.2
    | none => VoxelType.Air

/-- Embeds `Chunk::isVoxelTransparent` (`Chunk.cpp`): Air, Water and Leaves are
transparent, everything else is opaque. -/
def isVoxelTransparent (t : VoxelType) : Bool :=
  match t with
  | VoxelType.Air => true
  | VoxelType.Water => true
  | VoxelType.Leaves => true
  | _ => false

/-- The neighbor offset per face direction used by
`Chunk::shouldRenderFace`. -/
def directionOffset (d : Direction) : ℤ × ℤ × ℤ :=
  match d with
  | Direction.Front => (0, 0, 1)
  | Direction.Back => (0, 0, -1)
  | Direction.Top => (0, 1, 0)
  | Direction.Bottom => (0, -1, 0)
  | Direction.Right => (1, 0, 0)
  | Direction.Left => (-1, 0, 0)

/-- Embeds `Chunk::shouldRenderFace` (`Chunk.cpp`): air voxels render no face;
otherwise the face renders iff the one-step neighbor (via world-space
lookup) is transparent, except that a transparent neighbor of the identical
type suppresses the face. -/
def Chunk.shouldRenderFace (c : Chunk) (x y z : ℤ) (d : Direction) : Bool :=
  let currentType := c.core.getVoxel x y z
  if currentType = VoxelType.Air then false
  else
    let o := directionOffset d
    let neighborType := c.getVoxelWorldSpace (x + o.1) (y + o.2.1) (z + o.2.2)
    let isNeighborTransparent := isVoxelTransparent neighborType
    if isNeighborTransparent && decide (currentType = neighborType) then false
    else isNeighborTransparent

/-- Embeds `VoxelGame::worldToChunkCoords` (`VoxelGame.cpp`): per axis,
`x >= 0 ? x / S : (x - S + 1) / S` with C++ truncating division. -/
def worldToChunkCoords (x y z : ℤ) : ℤ × ℤ × ℤ :=
  ( if 0 ≤ x then x.tdiv CHUNK_SIZE_X else (x - CHUNK_SIZE_X + 1).tdiv CHUNK_SIZE_X,
    if 0 ≤ y then y.tdiv CHUNK_SIZE_Y else (y - CHUNK_SIZE_Y + 1).tdiv CHUNK_SIZE_Y,
    if 0 ≤ z then z.tdiv CHUNK_SIZE_Z else (z - CHUNK_SIZE_Z + 1).tdiv CHUNK_SIZE_Z )

/-- Embeds `VoxelGame::worldToLocalCoords` (`VoxelGame.cpp`): per axis,
`x >= 0 ? x % S : (x % S + S) % S` with C++ truncating remainder. -/
def worldToLocalCoords (x y z : ℤ) : ℤ × ℤ × ℤ :=
  ( if 0 ≤ x then x.tmod CHUNK_SIZE_X else ((x.tmod CHUNK_SIZE_X) + CHUNK_SIZE_X).tmod CHUNK_SIZE_X,
    if 0 ≤ y then y.tmod CHUNK_SIZE_Y else ((y.tmod CHUNK_SIZE_Y) + CHUNK_SIZE_Y).tmod CHUNK_SIZE_Y,
    if 0 ≤ z then z.tmod CHUNK_SIZE_Z else ((z.tmod CHUNK_SIZE_Z) + CHUNK_SIZE_Z).tmod CHUNK_SIZE_Z )

/-! ## Greedy mesher (`VoxelRenderer::buildGreedyMesh`) -/

/-- The `dimU` assignment of `buildGreedyMesh`'s direction switch
(0 = X, 1 = Y, 2 = Z). -/
def dimU (d : Direction) : ℕ :=
  match d with
  | Direction.Front | Direction.Back => 0
  | Direction.Top | Direction.Bottom => 0
  | Direction.Right | Direction.Left => 2

/-- The `dimV` assignment of `buildGreedyMesh`'s direction switch. -/
def dimV (d : Direction) : ℕ :=
  match d with
  | Direction.Front | Direction.Back => 1
  | Direction.Top | Direction.Bottom => 2
  | Direction.Right | Direction.Left => 1

/-- The `dimW` assignment of `buildGreedyMesh`'s direction switch. -/
def dimW (d : Direction) : ℕ :=
  match d with
  | Direction.Front | Direction.Back => 2
  | Direction.Top | Direction.Bottom => 1
  | Direction.Right | Direction.Left => 0

/-- The `uSize`/`vSize`/`wSize` switch of `buildGreedyMesh`: dimension index
to chunk size (the variables are initialized to 0, so an impossible index
yields 0). -/
def axisSize (sx sy sz : ℕ) (dim : ℕ) : ℕ :=
  match dim with
  | 0 => sx
  | 1 => sy
  | 2 => sz
  | _ => 0

/-- One `if dim == 0 then pos.x = val elif ...` chain of `buildGreedyMesh`. -/
def setAxis (dim : ℕ) (val : ℕ) (p : ℕ × ℕ × ℕ) : ℕ × ℕ × ℕ :=
  if dim = 0 then (val, p.2.1, p.2.2)
  else if dim = 1 then (p.1, val, p.2.2)
  else if dim = 2 then (p.1, p.2.1, val)
  else p

/-- The uvw→xyz conversion of `buildGreedyMesh`: starting from `(0,0,0)`,
assign `u` along `dimU`, `v` along `dimV`, `w` along `dimW`. -/
def uvwToXYZ (d : Direction) (u v w : ℕ) : ℕ × ℕ × ℕ :=
  setAxis (dimW d) w (setAxis (dimV d) v (setAxis (dimU d) u (0, 0, 0)))

/-- A mask cell, indexed `(v, u)` like `mask[v][u]`. -/
abbrev MaskCell := ℕ × ℕ

/-- The cells `{(v+dv, u+du) | dv < height, du < width}` covered by a merged
rectangle anchored at `(v, u)` — the area cleared by the
"mark the merged area as processed" loop of `buildGreedyMesh`. -/
def rectCells (v u width height : ℕ) : Finset MaskCell :=
  (Finset.range height ×ˢ Finset.range width).image
    (fun p => (v + p.1, u + p.2))

/-- A merged rectangle in slice coordinates: anchor `(v, u)` plus the
`width`/`height` computed by the two greedy extension loops. -/
structure SliceRect where
  v : ℕ
  u : ℕ
  width : ℕ
  height : ℕ
deriving DecidableEq, Repr

/-- The cells covered by a slice rectangle. -/
def SliceRect.cells (r : SliceRect) : Finset MaskCell :=
  rectCells r.v r.u r.width r.height

/-- A `while (ok n) n++` loop, with enough fuel to cover the bounded scan:
both extension loops of `buildGreedyMesh` are of this shape. -/
def growLoop (ok : ℕ → Bool) : ℕ → ℕ → ℕ
  | 0, n => n
  | fuel + 1, n => if ok n then growLoop ok fuel (n + 1) else n

/-- The width-extension condition of `buildGreedyMesh`:
`u + width < uSize && mask[v][u+width] && types[v][u+width] == currentType`. -/
def widthOk (mask : Finset MaskCell) (types : MaskCell → VoxelType)
    (currentType : VoxelType) (v u uSize : ℕ) (wd : ℕ) : Bool :=
  decide (u + wd < uSize) && decide ((v, u + wd) ∈ mask) &&
  decide (types (v, u + wd) = currentType)

/-- The height-extension condition of `buildGreedyMesh`:
`v + height < vSize` and the whole next row across `width` matches. -/
def heightOk (mask : Finset MaskCell) (types : MaskCell → VoxelType)
    (currentType : VoxelType) (v u width vSize : ℕ) (hg : ℕ) : Bool :=
  decide (v + hg < vSize) &&
  decide (∀ du < width, (v + hg, u + du) ∈ mask ∧ types (v + hg, u + du) = currentType)

/-- The rectangle grown from an unprocessed mask cell `p`: width first
(`while` over `widthOk`, starting at 1 with fuel `uSize`), then height
(`while` over `heightOk` at the computed width, starting at 1 with fuel
`vSize`), exactly as the two extension loops of `buildGreedyMesh`. -/
def emitRect (types : MaskCell → VoxelType) (uSize vSize : ℕ)
    (mask : Finset MaskCell) (p : MaskCell) : SliceRect :=
  let currentType := types p
  let width := growLoop (widthOk mask types currentType p.1 p.2 uSize) uSize 1
  let height := growLoop (heightOk mask types currentType p.1 p.2 width vSize) vSize 1
  ⟨p.1, p.2, width, height⟩

/-- The body of `buildGreedyMesh`'s scan over one mask position `(v, u)`:
if the cell is still set, grow the rectangle (width first, then height),
emit it, and clear its cells from the mask. -/
def scanStep (types : MaskCell → VoxelType) (uSize vSize : ℕ)
    (st : Finset MaskCell × List SliceRect) (p : MaskCell) :
    Finset MaskCell × List SliceRect :=
  if p ∈ st.1 then
    (st.1 \ (emitRect types uSize vSize st.1 p).cells,
     st.2 ++ [emitRect types uSize vSize st.1 p])
  else st

/-- Row-major scan order of `buildGreedyMesh`'s nested
`for v … for u …` loops. -/
def scanOrder (vSize uSize : ℕ) : List MaskCell :=
  (List.range vSize).flatMap (fun v => (List.range uSize).map (fun u => (v, u)))

/-- The whole greedy rectangle scan of one slice of `buildGreedyMesh`. -/
def greedyScanSlice (types : MaskCell → VoxelType) (uSize vSize : ℕ)
    (mask0 : Finset MaskCell) : List SliceRect :=
  ((scanOrder vSize uSize).foldl (scanStep types uSize vSize) (mask0, [])).2

/-- The mask fill loop of `buildGreedyMesh` for direction `d` and slice `w`:
`mask[v][u]` is set iff `shouldRenderFaceFunc` holds at the uvw→xyz mapped
position. -/
def sliceMask (shouldRenderFaceFunc : ℤ → ℤ → ℤ → Direction → Bool)
    (sx sy sz : ℕ) (d : Direction) (w : ℕ) : Finset MaskCell :=
  (Finset.range (axisSize sx sy sz (dimV d)) ×ˢ
   Finset.range (axisSize sx sy sz (dimU d))).filter
    (fun p =>
      let pos := uvwToXYZ d p.2 p.1 w
      shouldRenderFaceFunc (pos.1 : ℤ) (pos.2.1 : ℤ) (pos.2.2 : ℤ) d)

/-- The parallel `types[v][u]` array of `buildGreedyMesh` for direction `d`
and slice `w` (read off `getVoxelFunc` at the mapped position; the array
cells never read are its fill value via the mask guard, so reading the
function directly is faithful wherever the mask is set). -/
def sliceTypes (getVoxelFunc : ℤ → ℤ → ℤ → VoxelType)
    (d : Direction) (w : ℕ) : MaskCell → VoxelType :=
  fun p =>
    let pos := uvwToXYZ d p.2 p.1 w
    getVoxelFunc (pos.1 : ℤ) (pos.2.1 : ℤ) (pos.2.2 : ℤ)

/-- Embeds `struct MergedFace` from `VoxelRenderer.hpp`. -/
structure MergedFace where
  direction : Direction
  type : VoxelType
  start : ℤ × ℤ × ℤ
  size : ℕ × ℕ
deriving DecidableEq, Repr

/-- Conversion of one scanned rectangle into the `MergedFace` that
`buildGreedyMesh` pushes: `start` is the uvw→xyz mapped anchor plus
`chunkPos * glm::ivec3(chunkSizeX, 0, chunkSizeZ)`. -/
def rectToMergedFace (getVoxelFunc : ℤ → ℤ → ℤ → VoxelType)
    (sx sz : ℕ) (chunkPos : ℤ × ℤ × ℤ) (d : Direction) (w : ℕ)
    (r : SliceRect) : MergedFace :=
  let start := uvwToXYZ d r.u r.v w
  { direction := d
    type := sliceTypes getVoxelFunc d w (r.v, r.u)
    start := ( (start.1 : ℤ) + chunkPos.1 * (sx : ℤ),
               (start.2.1 : ℤ) + chunkPos.2.1 * 0,
               (start.2.2 : ℤ) + chunkPos.2.2 * (sz : ℤ) )
    size := (r.width, r.height) }

/-- All six directions in the order of `buildGreedyMesh`'s
`for (int faceDir = 0; faceDir < 6; faceDir++)`. -/
def allDirections : List Direction :=
  [Direction.Front, Direction.Back, Direction.Top,
   Direction.Bottom, Direction.Right, Direction.Left]

/-- The merged-face list `m_MergedFaces` produced by
`VoxelRenderer::buildGreedyMesh`: for each direction and each slice, the
greedy scan of that slice's mask, with each rectangle converted to a
world-positioned `MergedFace`. -/
def buildGreedyMeshFaces (sx sy sz : ℕ)
    (getVoxelFunc : ℤ → ℤ → ℤ → VoxelType)
    (shouldRenderFaceFunc : ℤ → ℤ → ℤ → Direction → Bool)
    (chunkPos : ℤ × ℤ × ℤ) : List MergedFace :=
  allDirections.flatMap (fun d =>
    (List.range (axisSize sx sy sz (dimW d))).flatMap (fun w =>
      (greedyScanSlice (sliceTypes getVoxelFunc d w)
          (axisSize sx sy sz (dimU d)) (axisSize sx sy sz (dimV d))
          (sliceMask shouldRenderFaceFunc sx sy sz d w)).map
        (rectToMergedFace getVoxelFunc sx sz chunkPos d w)))

/-! ## Geometry emitter (`VoxelRenderer` vertex/index generation) -/

/-- Embeds `struct Vertex` (position, normal, UV, color), `float` modelled as `ℚ`. -/
structure Vertex where
  position : ℚ × ℚ × ℚ
  normal : ℚ × ℚ × ℚ
  uv : ℚ × ℚ
  color : ℚ × ℚ × ℚ × ℚ
deriving DecidableEq, Repr

/-- Embeds `m_VoxelSize` (`VoxelRenderer.hpp`). -/
def m_VoxelSize : ℚ := 1

/-- Embeds `VoxelRenderer::getVoxelColor` with the `m_ColorCache` contents set up
by `VoxelRenderer::init`; every enum value is cached, so the magenta
fallback for unknown types is unreachable here. -/
def getVoxelColor (t : VoxelType) : ℚ × ℚ × ℚ × ℚ :=
  match t with
  | VoxelType.Air => (0, 0, 0, 0)
  | VoxelType.Grass => (63/1000, 192/1000, 243/1000, 1)
  | VoxelType.Dirt => (6/10, 4/10, 2/10, 1)
  | VoxelType.Stone => (7/10, 7/10, 7/10, 1)
  | VoxelType.Sand => (95/100, 95/100, 5/10, 1)
  | VoxelType.Water => (184/1000, 478/1000, 471/1000, 7/10)
  | VoxelType.Wood => (275/1000, 573/1000, 502/1000, 1)
  | VoxelType.Leaves => (2/10, 6/10, 1/10, 9/10)

/-- Embeds `VoxelRenderer::generateMergedFaceVertices`: exactly four vertices with
the per-direction layout, the in-plane edges scaled by the merged size. -/
def generateMergedFaceVertices (face : MergedFace) : List Vertex :=
  let x : ℚ := (face.start.1 : ℚ) * m_VoxelSize
  let y : ℚ := (face.start.2.1 : ℚ) * m_VoxelSize
  let z : ℚ := (face.start.2.2 : ℚ) * m_VoxelSize
  let width : ℚ := (face.size.1 : ℚ) * m_VoxelSize
  let height : ℚ := (face.size.2 : ℚ) * m_VoxelSize
  let color := getVoxelColor face.type
  match face.direction with
  | Direction.Front =>
      [ ⟨(x, y, z + m_VoxelSize), (0, 0, 1), (0, 0), color⟩,
        ⟨(x + width, y, z + m_VoxelSize), (0, 0, 1), (1, 0), color⟩,
        ⟨(x + width, y + height, z + m_VoxelSize), (0, 0, 1), (1, 1), color⟩,
        ⟨(x, y + height, z + m_VoxelSize), (0, 0, 1), (0, 1), color⟩ ]
  | Direction.Back =>
      [ ⟨(x, y, z), (0, 0, -1), (0, 0), color⟩,
        ⟨(x, y + height, z), (0, 0, -1), (0, 1), color⟩,
        ⟨(x + width, y + height, z), (0, 0, -1), (1, 1), color⟩,
        ⟨(x + width, y, z), (0, 0, -1), (1, 0), color⟩ ]
  | Direction.Top =>
      [ ⟨(x, y + m_VoxelSize, z), (0, 1, 0), (0, 0), color⟩,
        ⟨(x, y + m_VoxelSize, z + height), (0, 1, 0), (0, 1), color⟩,
        ⟨(x + width, y + m_VoxelSize, z + height), (0, 1, 0), (1, 1), color⟩,
        ⟨(x + width, y + m_VoxelSize, z), (0, 1, 0), (1, 0), color⟩ ]
  | Direction.Bottom =>
      [ ⟨(x, y, z), (0, -1, 0), (0, 0), color⟩,
        ⟨(x + width, y, z), (0, -1, 0), (1, 0), color⟩,
        ⟨(x + width, y, z + height), (0, -1, 0), (1, 1), color⟩,
        ⟨(x, y, z + height), (0, -1, 0), (0, 1), color⟩ ]
  | Direction.Right =>
      [ ⟨(x + m_VoxelSize, y, z), (1, 0, 0), (0, 0), color⟩,
        ⟨(x + m_VoxelSize, y + height, z), (1, 0, 0), (0, 1), color⟩,
        ⟨(x + m_VoxelSize, y + height, z + width), (1, 0, 0), (1, 1), color⟩,
        ⟨(x + m_VoxelSize, y, z + width), (1, 0, 0), (1, 0), color⟩ ]
  | Direction.Left =>
      [ ⟨(x, y, z + width), (-1, 0, 0), (0, 0), color⟩,
        ⟨(x, y, z), (-1, 0, 0), (1, 0), color⟩,
        ⟨(x, y + height, z), (-1, 0, 0), (1, 1), color⟩,
        ⟨(x, y + height, z + width), (-1, 0, 0), (0, 1), color⟩ ]

/-- Embeds `VoxelRenderer::generateFaceIndices`: the two-triangle index pattern
over the four vertices starting at `baseIndex`. -/
def generateFaceIndices (baseIndex : ℕ) : List ℕ :=
  [baseIndex, baseIndex + 1, baseIndex + 2,
   baseIndex, baseIndex + 2, baseIndex + 3]

/-- The buffer-assembly loop at the end of `buildGreedyMesh`: per face,
append its four vertices and six indices, advancing `baseIndex` by 4. -/
def assembleBuffers (faces : List MergedFace) : List Vertex × List ℕ :=
  let fin := faces.foldl
    (fun (acc : List Vertex × List ℕ × ℕ) face =>
      ( acc.1 ++ generateMergedFaceVertices face,
        acc.2.1 ++ generateFaceIndices acc.2.2,
        acc.2.2 + 4 ))
    ([], [], 0)
  (fin.1, fin.2.1)

/-! ## Statement-side definitions -/

/-- The face-visibility rule as the spec words it (§4.2): false for air;
otherwise false when the neighbor is transparent — spelled out as Air,
Water or Leaves — and of the identical type as the current voxel, else
true exactly when the neighbor is transparent.  Compared against
`Chunk.shouldRenderFace` in the refinement theorem for the oracle. -/
def shouldRenderFaceSpec (c : Chunk) (x y z : ℤ) (d : Direction) : Bool :=
  let currentType := c.core.getVoxel x y z
  if currentType = VoxelType.Air then false
  else
    let o := directionOffset d
    let neighborType := c.getVoxelWorldSpace (x + o.1) (y + o.2.1) (z + o.2.2)
    let transparent : Prop :=
      neighborType = VoxelType.Air ∨ neighborType = VoxelType.Water ∨
      neighborType = VoxelType.Leaves
    if transparent ∧ neighborType = currentType then false
    else decide transparent

/-- A sequence of `Chunk::setVoxel` calls applied in order (used to state
the monotonicity of the emptiness flag). -/
def applySetVoxels (c : ChunkCore) (ops : List ((ℤ × ℤ × ℤ) × VoxelType)) : ChunkCore :=
  ops.foldl (fun c op => c.setVoxel op.1.1 op.1.2.1 op.1.2.2 op.2) c

/-! ## Helper lemmas: C++ division and remainder idioms -/

lemma tmod_neg_dividend (a b : ℤ) : (-a).tmod b = -(a.tmod b) := by
  rw [Int.tmod_def, Int.tmod_def, Int.neg_tdiv]
  ring

lemma cppIdiom_div (S x : ℤ) (hS : S = 16 ∨ S = 256) :
    (if 0 ≤ x then x.tdiv S else (x - S + 1).tdiv S) = x / S := by
  have hS0 : (0:ℤ) ≤ S := by rcases hS with rfl | rfl <;> norm_num
  by_cases hx : 0 ≤ x
  · simp only [hx, if_true]
    exact Int.tdiv_eq_ediv hx hS0
  · simp only [hx, if_false]
    have e : x - S + 1 = -(S - 1 - x) := by ring
    have h1 : 0 ≤ S - 1 - x := by omega
    rw [e, Int.neg_tdiv, Int.tdiv_eq_ediv h1 hS0]
    rcases hS with rfl | rfl <;> omega

lemma cppIdiom_mod (S x : ℤ) (hS : S = 16 ∨ S = 256) :
    (if 0 ≤ x then x.tmod S else (x.tmod S + S).tmod S) = x % S := by
  have hS0 : (0:ℤ) ≤ S := by rcases hS with rfl | rfl <;> norm_num
  by_cases hx : 0 ≤ x
  · simp only [hx, if_true]
    exact Int.tmod_eq_emod hx hS0
  · simp only [hx, if_false]
    have hx2 : 0 ≤ -x := by omega
    have h2 : x.tmod S = -((-x) % S) := by
      have := tmod_neg_dividend (-x) S
      rw [neg_neg] at this
      rw [this, Int.tmod_eq_emod hx2 hS0]
    have h3 : 0 ≤ -((-x) % S) + S := by
      have := Int.emod_lt_of_pos (-x) (show 0 < S by omega)
      omega
    rw [h2, Int.tmod_eq_emod h3 hS0]
    rcases hS with rfl | rfl <;> omega

/-! ## C3: coordinate round-trip -/

/-- C3: `worldToChunkCoords` and `worldToLocalCoords` round-trip on every
integer world position: per axis `chunkCoord * size + localCoord`
reconstructs the input, the local coordinate lies in `[0, size)`, and in
particular x = -1 maps to chunk coordinate -1 with local coordinate 15. -/
theorem c3_world_coords_roundtrip (x y z : ℤ) :
    (worldToChunkCoords x y z).1 * CHUNK_SIZE_X + (worldToLocalCoords x y z).1 = x ∧
    0 ≤ (worldToLocalCoords x y z).1 ∧ (worldToLocalCoords x y z).1 < CHUNK_SIZE_X ∧
    (worldToChunkCoords x y z).2.1 * CHUNK_SIZE_Y + (worldToLocalCoords x y z).2.1 = y ∧
    0 ≤ (worldToLocalCoords x y z).2.1 ∧ (worldToLocalCoords x y z).2.1 < CHUNK_SIZE_Y ∧
    (worldToChunkCoords x y z).2.2 * CHUNK_SIZE_Z + (worldToLocalCoords x y z).2.2 = z ∧
    0 ≤ (worldToLocalCoords x y z).2.2 ∧ (worldToLocalCoords x y z).2.2 < CHUNK_SIZE_Z ∧
    (worldToChunkCoords (-1) 0 0).1 = -1 ∧ (worldToLocalCoords (-1) 0 0).1 = 15 := by
  have hx := cppIdiom_div 16 x (Or.inl rfl)
  have hy := cppIdiom_div 256 y (Or.inr rfl)
  have hz := cppIdiom_div 16 z (Or.inl rfl)
  have mx := cppIdiom_mod 16 x (Or.inl rfl)
  have my := cppIdiom_mod 256 y (Or.inr rfl)
  have mz := cppIdiom_mod 16 z (Or.inl rfl)
  simp only [worldToChunkCoords, worldToLocalCoords, CHUNK_SIZE_X, CHUNK_SIZE_Y,
    CHUNK_SIZE_Z] at *
  rw [hx, hy, hz, mx, my, mz]
  refine ⟨by omega, by omega, by omega, by omega, by omega, by omega, by omega,
    by omega, by omega, by decide, by decide⟩

/-! ## C6: out-of-bounds reads and writes -/

lemma isValidPosition_false {x y z : ℤ}
    (h : ¬ (0 ≤ x ∧ x < 16 ∧ 0 ≤ y ∧ y < 256 ∧ 0 ≤ z ∧ z < 16)) :
    isValidPosition x y z = false := by
  cases hb : isValidPosition x y z
  · rfl
  · exfalso
    apply h
    simp only [isValidPosition, CHUNK_SIZE_X, CHUNK_SIZE_Y, CHUNK_SIZE_Z,
      Bool.and_eq_true, decide_eq_true_eq] at hb
    tauto

/-- C6: for every integer position outside the chunk bounds
`[0,16) × [0,256) × [0,16)`, `getVoxel` returns Air and `setVoxel` leaves
the voxel array untouched (a silent no-op): both are total. -/
theorem c6_out_of_bounds_read_air_write_noop (c : ChunkCore) (x y z : ℤ) (t : VoxelType)
    (h : ¬ (0 ≤ x ∧ x < 16 ∧ 0 ≤ y ∧ y < 256 ∧ 0 ≤ z ∧ z < 16)) :
    c.getVoxel x y z = VoxelType.Air ∧ (c.setVoxel x y z t).voxels = c.voxels := by
  have hv := isValidPosition_false h
  constructor
  · simp [ChunkCore.getVoxel, hv]
  · simp [ChunkCore.setVoxel, hv]

/-- Witness for C6 at the concrete out-of-bounds position (-1, 0, 0). -/
theorem c6_out_of_bounds_read_air_write_noop_witness :
    (ChunkCore.init (0, 0, 0)).getVoxel (-1) 0 0 = VoxelType.Air ∧
    ((ChunkCore.init (0, 0, 0)).setVoxel (-1) 0 0 VoxelType.Stone).voxels =
      (ChunkCore.init (0, 0, 0)).voxels :=
  c6_out_of_bounds_read_air_write_noop (ChunkCore.init (0, 0, 0)) (-1) 0 0
    VoxelType.Stone (by decide)

/-! ## C7: monotonicity of the emptiness flag -/

lemma setVoxel_preserves_nonempty (c : ChunkCore) (x y z : ℤ) (t : VoxelType)
    (h : c.mEmpty = false) : (c.setVoxel x y z t).mEmpty = false := by
  unfold ChunkCore.setVoxel
  split
  · simp only []
    split <;> simp [h]
  · exact h

/-- C7: a fresh chunk reports empty; an in-bounds non-air write makes the
chunk non-empty; and once non-empty, no sequence of further `setVoxel`
calls (air writes included) ever restores the empty flag. -/
theorem c7_empty_flag_monotonic :
    (∀ pos, (ChunkCore.init pos).isEmpty = true) ∧
    (∀ (c : ChunkCore) (x y z : ℤ) (t : VoxelType),
      isValidPosition x y z = true → t ≠ VoxelType.Air →
      (c.setVoxel x y z t).isEmpty = false) ∧
    (∀ (c : ChunkCore) (ops : List ((ℤ × ℤ × ℤ) × VoxelType)),
      c.isEmpty = false → (applySetVoxels c ops).isEmpty = false) := by
  refine ⟨fun pos => rfl, ?_, ?_⟩
  · intro c x y z t hv ht
    simp [ChunkCore.setVoxel, ChunkCore.isEmpty, hv, ht]
  · intro c ops
    induction ops generalizing c with
    | nil => exact fun h => h
    | cons op rest ih =>
        intro h
        exact ih _ (setVoxel_preserves_nonempty _ _ _ _ _ h)

/-- Witness for C7: writing Stone at (1,2,3) into a fresh chunk makes it
non-empty, and overwriting with Air afterwards does not restore emptiness. -/
theorem c7_empty_flag_monotonic_witness :
    ((ChunkCore.init (0, 0, 0)).setVoxel 1 2 3 VoxelType.Stone).isEmpty = false ∧
    (applySetVoxels ((ChunkCore.init (0, 0, 0)).setVoxel 1 2 3 VoxelType.Stone)
      [((1, 2, 3), VoxelType.Air)]).isEmpty = false :=
  ⟨c7_empty_flag_monotonic.2.1 _ 1 2 3 _ (by decide) (by decide),
   c7_empty_flag_monotonic.2.2 _ _
     (c7_empty_flag_monotonic.2.1 _ 1 2 3 _ (by decide) (by decide))⟩

/-! ## C2: the face-visibility oracle -/

lemma isVoxelTransparent_iff (t : VoxelType) :
    isVoxelTransparent t =
      decide (t = VoxelType.Air ∨ t = VoxelType.Water ∨ t = VoxelType.Leaves) := by
  cases t <;> rfl

lemma renderRule_eq (cur nt : VoxelType) :
    (if isVoxelTransparent nt && decide (cur = nt) then false else isVoxelTransparent nt) =
    (if (nt = VoxelType.Air ∨ nt = VoxelType.Water ∨ nt = VoxelType.Leaves) ∧ nt = cur
     then false
     else decide (nt = VoxelType.Air ∨ nt = VoxelType.Water ∨ nt = VoxelType.Leaves)) := by
  cases cur <;> cases nt <;> decide

/-- C2: for in-bounds positions, `Chunk::shouldRenderFace` computes exactly
the spec's rule: false for air voxels, false for a transparent neighbor of
the identical type, and otherwise true exactly when the neighbor (via the
world-space lookup) is transparent (Air, Water or Leaves). -/
theorem c2_shouldRenderFace_matches_spec (c : Chunk) (x y z : ℤ) (d : Direction)
    (h : 0 ≤ x ∧ x < CHUNK_SIZE_X ∧ 0 ≤ y ∧ y < CHUNK_SIZE_Y ∧
         0 ≤ z ∧ z < CHUNK_SIZE_Z) :
    c.shouldRenderFace x y z d = shouldRenderFaceSpec c x y z d := by
  simp only [Chunk.shouldRenderFace, shouldRenderFaceSpec]
  by_cases hc : c.core.getVoxel x y z = VoxelType.Air
  · simp [hc]
  · simp only [hc, if_false]
    exact renderRule_eq (c.core.getVoxel x y z)
      (c.getVoxelWorldSpace (x + (directionOffset d).1) (y + (directionOffset d).2.1)
        (z + (directionOffset d).2.2))

/-- Witness for C2 at a concrete chunk and position. -/
theorem c2_shouldRenderFace_matches_spec_witness :
    Chunk.shouldRenderFace ⟨ChunkCore.init (0, 0, 0), fun _ => none⟩ 0 0 0 Direction.Front =
      shouldRenderFaceSpec ⟨ChunkCore.init (0, 0, 0), fun _ => none⟩ 0 0 0 Direction.Front :=
  c2_shouldRenderFace_matches_spec _ 0 0 0 Direction.Front (by decide)

/-! ## C10: totality of the world-space lookup -/

lemma wrapAxis_inrange (S t : ℤ) (hS : 0 < S) (h1 : -S ≤ t) (h2 : t < 2 * S) :
    wrapAxis S t = (t / S, t % S) := by
  unfold wrapAxis
  by_cases hlo : t < 0
  · rw [if_pos hlo]
    have hdiv : t / S = -1 := by
      have h3 : (t + S + (-1) * S) / S = (t + S) / S + (-1) :=
        Int.add_mul_ediv_right _ _ (by omega)
      have h4 : (t + S) / S = 0 := Int.ediv_eq_zero_of_lt (by omega) (by omega)
      have h5 : t + S + (-1) * S = t := by ring
      rw [h5] at h3
      rw [h3, h4]
      norm_num
    have hmod : t % S = t + S := by
      rw [Int.emod_def, hdiv]
      ring
    rw [hdiv, hmod]
  · by_cases hhi : t ≥ S
    · rw [if_neg hlo, if_pos hhi]
      have hdiv : t / S = 1 := by
        have h3 : (t - S + 1 * S) / S = (t - S) / S + 1 :=
          Int.add_mul_ediv_right _ _ (by omega)
        have h4 : (t - S) / S = 0 := Int.ediv_eq_zero_of_lt (by omega) (by omega)
        have h5 : t - S + 1 * S = t := by ring
        rw [h5] at h3
        rw [h3, h4]
        norm_num
      have hmod : t % S = t - S := by
        rw [Int.emod_def, hdiv]
        ring
      rw [hdiv, hmod]
    · rw [if_neg hlo, if_neg hhi]
      have hdiv : t / S = 0 := Int.ediv_eq_zero_of_lt (by omega) (by omega)
      have hmod : t % S = t := by
        rw [Int.emod_def, hdiv]
        ring
      rw [hdiv, hmod]

lemma wrapAxis_snd_lt (S t : ℤ) (hS : 0 < S) (h : t < -S) : (wrapAxis S t).2 < 0 := by
  unfold wrapAxis
  rw [if_pos (show t < 0 by omega)]
  show t + S < 0
  omega

lemma wrapAxis_snd_ge (S t : ℤ) (hS : 0 < S) (h : 2 * S ≤ t) :
    S ≤ (wrapAxis S t).2 := by
  unfold wrapAxis
  rw [if_neg (show ¬ t < 0 by omega), if_pos (show t ≥ S by omega)]
  show S ≤ t - S
  omega

lemma isValidPosition_false_sizes {x y z : ℤ}
    (h : ¬ (0 ≤ x ∧ x < CHUNK_SIZE_X ∧ 0 ≤ y ∧ y < CHUNK_SIZE_Y ∧
            0 ≤ z ∧ z < CHUNK_SIZE_Z)) :
    isValidPosition x y z = false := by
  apply isValidPosition_false
  simpa [CHUNK_SIZE_X, CHUNK_SIZE_Y, CHUNK_SIZE_Z] using h

/-- C10: `getVoxelWorldSpace` is total over all integer coordinates.  For an
out-of-bounds query whose coordinates are each within one chunk size of the
bounds, every out-of-range axis is wrapped (floor-division neighbor delta,
true-modulo local coordinate) and the possibly diagonal neighbor under the
corresponding key is consulted; any coordinate more than one full chunk
size outside leaves the wrapped coordinate out of the neighbor's bounds, so
the result is Air even when a neighbor is linked. -/
theorem c10_getVoxelWorldSpace_total (c : Chunk) (x y z : ℤ)
    (h : isValidPosition x y z = false) :
    c.getVoxelWorldSpace x y z =
      if -CHUNK_SIZE_X ≤ x ∧ x < 2 * CHUNK_SIZE_X ∧
         -CHUNK_SIZE_Y ≤ y ∧ y < 2 * CHUNK_SIZE_Y ∧
         -CHUNK_SIZE_Z ≤ z ∧ z < 2 * CHUNK_SIZE_Z then
        match c.neighbors (neighborKey (x / CHUNK_SIZE_X) (y / CHUNK_SIZE_Y)
            (z / CHUNK_SIZE_Z)) with
        | some n => n.getVoxel (x % CHUNK_SIZE_X) (y % CHUNK_SIZE_Y) (z % CHUNK_SIZE_Z)
        | none => VoxelType.Air
      else VoxelType.Air := by
  simp only [Chunk.getVoxelWorldSpace, h, Bool.false_eq_true, if_false]
  by_cases hin : -CHUNK_SIZE_X ≤ x ∧ x < 2 * CHUNK_SIZE_X ∧
      -CHUNK_SIZE_Y ≤ y ∧ y < 2 * CHUNK_SIZE_Y ∧
      -CHUNK_SIZE_Z ≤ z ∧ z < 2 * CHUNK_SIZE_Z
  · obtain ⟨h1, h2, h3, h4, h5, h6⟩ := hin
    rw [if_pos ⟨h1, h2, h3, h4, h5, h6⟩,
      wrapAxis_inrange CHUNK_SIZE_X x (by decide) h1 h2,
      wrapAxis_inrange CHUNK_SIZE_Y y (by decide) h3 h4,
      wrapAxis_inrange CHUNK_SIZE_Z z (by decide) h5 h6]
  · rw [if_neg hin]
    have hsplit : x < -CHUNK_SIZE_X ∨ 2 * CHUNK_SIZE_X ≤ x ∨
        y < -CHUNK_SIZE_Y ∨ 2 * CHUNK_SIZE_Y ≤ y ∨
        z < -CHUNK_SIZE_Z ∨ 2 * CHUNK_SIZE_Z ≤ z := by
      simp only [CHUNK_SIZE_X, CHUNK_SIZE_Y, CHUNK_SIZE_Z] at hin ⊢
      omega
    have hv : isValidPosition (wrapAxis CHUNK_SIZE_X x).2 (wrapAxis CHUNK_SIZE_Y y).2
        (wrapAxis CHUNK_SIZE_Z z).2 = false := by
      apply isValidPosition_false_sizes
      rcases hsplit with hs | hs | hs | hs | hs | hs
      · have := wrapAxis_snd_lt CHUNK_SIZE_X x (by decide) hs
        omega
      · have := wrapAxis_snd_ge CHUNK_SIZE_X x (by decide) hs
        omega
      · have := wrapAxis_snd_lt CHUNK_SIZE_Y y (by decide) hs
        omega
      · have := wrapAxis_snd_ge CHUNK_SIZE_Y y (by decide) hs
        omega
      · have := wrapAxis_snd_lt CHUNK_SIZE_Z z (by decide) hs
        omega
      · have := wrapAxis_snd_ge CHUNK_SIZE_Z z (by decide) hs
        omega
    cases hopt : c.neighbors (neighborKey (wrapAxis CHUNK_SIZE_X x).1
        (wrapAxis CHUNK_SIZE_Y y).1 (wrapAxis CHUNK_SIZE_Z z).1) with
    | none => rfl
    | some n => simp [ChunkCore.getVoxel, hv]

/-- Witness for C10 at the concrete query (-20, 300, 40) against a chunk
with a linked (1,1,1) diagonal neighbor: x is more than one chunk size out,
so the result is Air. -/
theorem c10_getVoxelWorldSpace_total_witness :
    (Chunk.getVoxelWorldSpace
      ⟨ChunkCore.init (0, 0, 0), fun _ => some (ChunkCore.init (0, 0, 0))⟩
      (-20) 300 40) =
      (if -CHUNK_SIZE_X ≤ (-20:ℤ) ∧ (-20:ℤ) < 2 * CHUNK_SIZE_X ∧
          -CHUNK_SIZE_Y ≤ (300:ℤ) ∧ (300:ℤ) < 2 * CHUNK_SIZE_Y ∧
          -CHUNK_SIZE_Z ≤ (40:ℤ) ∧ (40:ℤ) < 2 * CHUNK_SIZE_Z then
        match (fun (_ : ℤ) => some (ChunkCore.init ((0:ℤ), (0:ℤ), (0:ℤ))))
            (neighborKey ((-20:ℤ) / CHUNK_SIZE_X) ((300:ℤ) / CHUNK_SIZE_Y)
            ((40:ℤ) / CHUNK_SIZE_Z)) with
        | some n => n.getVoxel ((-20:ℤ) % CHUNK_SIZE_X) ((300:ℤ) % CHUNK_SIZE_Y)
            ((40:ℤ) % CHUNK_SIZE_Z)
        | none => VoxelType.Air
      else VoxelType.Air) :=
  c10_getVoxelWorldSpace_total
    ⟨ChunkCore.init (0, 0, 0), fun _ => some (ChunkCore.init (0, 0, 0))⟩
    (-20) 300 40 (by decide)

/-! ## Greedy-scan theory: the extension loops -/

lemma growLoop_le (ok : ℕ → Bool) (fuel n : ℕ) : n ≤ growLoop ok fuel n := by
  induction fuel generalizing n with
  | zero => exact Nat.le_refl n
  | succ fuel ih =>
      unfold growLoop
      by_cases h : ok n
      · rw [if_pos h]
        exact Nat.le_trans (Nat.le_succ n) (ih (n + 1))
      · rw [if_neg h]

lemma growLoop_ok_of_lt (ok : ℕ → Bool) (fuel n : ℕ) :
    ∀ j, n ≤ j → j < growLoop ok fuel n → ok j = true := by
  induction fuel generalizing n with
  | zero => exact fun j h1 h2 => absurd (Nat.lt_of_le_of_lt h1 h2) (Nat.lt_irrefl n)
  | succ fuel ih =>
      intro j h1 h2
      unfold growLoop at h2
      by_cases h : ok n
      · rw [if_pos h] at h2
        rcases Nat.eq_or_lt_of_le h1 with rfl | hlt
        · exact h
        · exact ih (n + 1) j hlt h2
      · rw [if_neg h] at h2
        exact absurd (Nat.lt_of_le_of_lt h1 h2) (Nat.lt_irrefl n)

lemma growLoop_of_not_ok (ok : ℕ → Bool) (fuel n : ℕ) (h : ok n = false) :
    growLoop ok fuel n = n := by
  cases fuel with
  | zero => rfl
  | succ fuel =>
      unfold growLoop
      rw [h]
      simp

lemma growLoop_ge_succ (ok : ℕ → Bool) (fuel n : ℕ) (hfuel : 1 ≤ fuel)
    (h : ok n = true) : n + 1 ≤ growLoop ok fuel n := by
  cases fuel with
  | zero => omega
  | succ fuel =>
      unfold growLoop
      rw [h]
      simpa using growLoop_le ok fuel (n + 1)

/-! ## Greedy-scan theory: rectangle cells -/

lemma mem_rectCells {v u wd hg : ℕ} {q : MaskCell} :
    q ∈ rectCells v u wd hg ↔
      ∃ dv du, dv < hg ∧ du < wd ∧ q = (v + dv, u + du) := by
  unfold rectCells
  simp only [Finset.mem_image, Finset.mem_product, Finset.mem_range]
  constructor
  · rintro ⟨⟨dv, du⟩, ⟨h1, h2⟩, rfl⟩
    exact ⟨dv, du, h1, h2, rfl⟩
  · rintro ⟨dv, du, h1, h2, rfl⟩
    exact ⟨(dv, du), ⟨h1, h2⟩, rfl⟩

lemma rectCells_card (v u wd hg : ℕ) :
    (rectCells v u wd hg).card = wd * hg := by
  unfold rectCells
  rw [Finset.card_image_of_injective _ (fun p q h => by
    simp only [Prod.mk.injEq] at h
    obtain ⟨h1, h2⟩ := h
    exact Prod.ext (by omega) (by omega))]
  rw [Finset.card_product, Finset.card_range, Finset.card_range]
  exact Nat.mul_comm hg wd

lemma anchor_mem_rectCells (v u wd hg : ℕ) (hw : 1 ≤ wd) (hh : 1 ≤ hg) :
    (v, u) ∈ rectCells v u wd hg := by
  rw [mem_rectCells]
  exact ⟨0, 0, by omega, by omega, by simp⟩

lemma rectCells_unit (v u : ℕ) : rectCells v u 1 1 = {(v, u)} := by
  ext q
  rw [mem_rectCells]
  simp only [Finset.mem_singleton]
  constructor
  · rintro ⟨dv, du, h1, h2, rfl⟩
    have : dv = 0 := by omega
    have : du = 0 := by omega
    subst_vars
    rfl
  · rintro rfl
    exact ⟨0, 0, by omega, by omega, by simp⟩

/-! ## Greedy-scan theory: the emitted rectangle -/

lemma emitRect_v (types : MaskCell → VoxelType) (uS vS : ℕ) (mask : Finset MaskCell)
    (p : MaskCell) : (emitRect types uS vS mask p).v = p.1 := rfl

lemma emitRect_u (types : MaskCell → VoxelType) (uS vS : ℕ) (mask : Finset MaskCell)
    (p : MaskCell) : (emitRect types uS vS mask p).u = p.2 := rfl

lemma emitRect_width_pos (types : MaskCell → VoxelType) (uS vS : ℕ)
    (mask : Finset MaskCell) (p : MaskCell) :
    1 ≤ (emitRect types uS vS mask p).width :=
  growLoop_le _ _ _

lemma emitRect_height_pos (types : MaskCell → VoxelType) (uS vS : ℕ)
    (mask : Finset MaskCell) (p : MaskCell) :
    1 ≤ (emitRect types uS vS mask p).height :=
  growLoop_le _ _ _

lemma emitRect_cells_subset (types : MaskCell → VoxelType) (uS vS : ℕ)
    (mask : Finset MaskCell) (p : MaskCell) (hp : p ∈ mask) :
    ∀ q ∈ (emitRect types uS vS mask p).cells, q ∈ mask ∧ types q = types p := by
  intro q hq
  rw [SliceRect.cells, mem_rectCells] at hq
  obtain ⟨dv, du, hdv, hdu, rfl⟩ := hq
  simp only [emitRect] at hdv hdu ⊢
  rcases Nat.eq_zero_or_pos dv with rfl | hdv1
  · rcases Nat.eq_zero_or_pos du with rfl | hdu1
    · constructor
      · simpa using hp
      · simp
    · have hok := growLoop_ok_of_lt
        (widthOk mask types (types p) p.1 p.2 uS) uS 1 du hdu1 hdu
      simp only [widthOk, Bool.and_eq_true, decide_eq_true_eq] at hok
      simpa using ⟨hok.1.2, hok.2⟩
  · have hok := growLoop_ok_of_lt
      (heightOk mask types (types p) p.1 p.2
        (growLoop (widthOk mask types (types p) p.1 p.2 uS) uS 1) vS) vS 1 dv hdv1 hdv
    simp only [heightOk, Bool.and_eq_true, decide_eq_true_eq] at hok
    exact (hok.2 du hdu).imp id (fun h => h)

lemma emitRect_anchor_mem (types : MaskCell → VoxelType) (uS vS : ℕ)
    (mask : Finset MaskCell) (p : MaskCell) :
    p ∈ (emitRect types uS vS mask p).cells := by
  have h := anchor_mem_rectCells p.1 p.2 (emitRect types uS vS mask p).width
    (emitRect types uS vS mask p).height
    (emitRect_width_pos types uS vS mask p) (emitRect_height_pos types uS vS mask p)
  simpa [SliceRect.cells, emitRect] using h

/-! ## Greedy-scan theory: unions of rectangle cells -/

/-- The union of the cells of a list of rectangles. -/
def cellsUnion (rs : List SliceRect) : Finset MaskCell :=
  rs.foldr (fun r s => r.cells ∪ s) ∅

lemma cellsUnion_nil : cellsUnion [] = ∅ := rfl

lemma cellsUnion_cons (r : SliceRect) (rs : List SliceRect) :
    cellsUnion (r :: rs) = r.cells ∪ cellsUnion rs := rfl

lemma mem_cellsUnion {q : MaskCell} {rs : List SliceRect} :
    q ∈ cellsUnion rs ↔ ∃ r ∈ rs, q ∈ r.cells := by
  induction rs with
  | nil => simp [cellsUnion_nil]
  | cons r rs ih =>
      simp [cellsUnion_cons, Finset.mem_union, ih]

lemma disjoint_cellsUnion {s : Finset MaskCell} {rs : List SliceRect} :
    Disjoint s (cellsUnion rs) ↔ ∀ r ∈ rs, Disjoint s r.cells := by
  simp only [Finset.disjoint_left]
  constructor
  · intro h r hr q hq hq2
    exact h hq (mem_cellsUnion.mpr ⟨r, hr, hq2⟩)
  · intro h q hq hq2
    obtain ⟨r, hr, hq3⟩ := mem_cellsUnion.mp hq2
    exact h r hr hq hq3

lemma card_cellsUnion (rs : List SliceRect)
    (h : List.Pairwise (fun r r2 => Disjoint r.cells r2.cells) rs) :
    (cellsUnion rs).card = (rs.map (fun r => r.cells.card)).sum := by
  induction rs with
  | nil => simp [cellsUnion_nil]
  | cons r rs ih =>
      rw [List.pairwise_cons] at h
      rw [cellsUnion_cons, List.map_cons, List.sum_cons,
        Finset.card_union_of_disjoint (disjoint_cellsUnion.mpr h.1), ih h.2]

/-! ## Greedy-scan theory: fold invariants -/

lemma scanStep_mask_subset (types : MaskCell → VoxelType) (uS vS : ℕ)
    (st : Finset MaskCell × List SliceRect) (p : MaskCell) :
    (scanStep types uS vS st p).1 ⊆ st.1 := by
  unfold scanStep
  by_cases hp : p ∈ st.1
  · rw [if_pos hp]
    exact Finset.sdiff_subset
  · rw [if_neg hp]

lemma foldl_mask_subset (types : MaskCell → VoxelType) (uS vS : ℕ)
    (l : List MaskCell) (st : Finset MaskCell × List SliceRect) :
    (l.foldl (scanStep types uS vS) st).1 ⊆ st.1 := by
  induction l generalizing st with
  | nil => exact fun q h => h
  | cons p l ih =>
      exact fun q h =>
        scanStep_mask_subset types uS vS st p (ih (scanStep types uS vS st p) h)

lemma foldl_rects_prefix (types : MaskCell → VoxelType) (uS vS : ℕ)
    (l : List MaskCell) (st : Finset MaskCell × List SliceRect) :
    ∃ new, (l.foldl (scanStep types uS vS) st).2 = st.2 ++ new := by
  induction l generalizing st with
  | nil => exact ⟨[], (List.append_nil st.2).symm⟩
  | cons p l ih =>
      by_cases hp : p ∈ st.1
      · have hstep : scanStep types uS vS st p =
            (st.1 \ (emitRect types uS vS st.1 p).cells,
             st.2 ++ [emitRect types uS vS st.1 p]) := by
          unfold scanStep
          rw [if_pos hp]
        obtain ⟨new, hnew⟩ := ih (st.1 \ (emitRect types uS vS st.1 p).cells,
          st.2 ++ [emitRect types uS vS st.1 p])
        refine ⟨emitRect types uS vS st.1 p :: new, ?_⟩
        simp only [List.foldl_cons]
        rw [hstep, hnew]
        simp
      · have hstep : scanStep types uS vS st p = st := by
          unfold scanStep
          rw [if_neg hp]
        obtain ⟨new, hnew⟩ := ih st
        refine ⟨new, ?_⟩
        simp only [List.foldl_cons]
        rw [hstep, hnew]

/-- The master invariant of the greedy scan: the rectangles appended while
folding over any position list have positive dimensions, constant type,
cells drawn from the starting mask, pairwise disjoint cells, and together
with the final mask they partition the starting mask. -/
lemma foldl_partition (types : MaskCell → VoxelType) (uS vS : ℕ)
    (l : List MaskCell) (st : Finset MaskCell × List SliceRect) :
    ∃ new, (l.foldl (scanStep types uS vS) st).2 = st.2 ++ new ∧
      (l.foldl (scanStep types uS vS) st).1 ∪ cellsUnion new = st.1 ∧
      Disjoint (l.foldl (scanStep types uS vS) st).1 (cellsUnion new) ∧
      List.Pairwise (fun r r2 => Disjoint r.cells r2.cells) new ∧
      ∀ r ∈ new, 1 ≤ r.width ∧ 1 ≤ r.height ∧ r.cells ⊆ st.1 ∧
        ∀ q ∈ r.cells, types q = types (r.v, r.u) := by
  induction l generalizing st with
  | nil =>
      exact ⟨[], (List.append_nil st.2).symm, by simp [cellsUnion_nil], by
        simp [cellsUnion_nil], List.Pairwise.nil, by simp⟩
  | cons p l ih =>
      by_cases hp : p ∈ st.1
      · have hstep : scanStep types uS vS st p =
            (st.1 \ (emitRect types uS vS st.1 p).cells,
             st.2 ++ [emitRect types uS vS st.1 p]) := by
          unfold scanStep
          rw [if_pos hp]
        obtain ⟨new, h1, h2, h3, h4, h5⟩ :=
          ih (st.1 \ (emitRect types uS vS st.1 p).cells,
            st.2 ++ [emitRect types uS vS st.1 p])
        dsimp only at h1 h2 h3 h5
        have hcells : (emitRect types uS vS st.1 p).cells ⊆ st.1 :=
          fun q hq => (emitRect_cells_subset types uS vS st.1 p hp q hq).1
        have hmasksub :
            (l.foldl (scanStep types uS vS)
              (st.1 \ (emitRect types uS vS st.1 p).cells,
               st.2 ++ [emitRect types uS vS st.1 p])).1 ⊆
            st.1 \ (emitRect types uS vS st.1 p).cells :=
          foldl_mask_subset types uS vS l _
        refine ⟨emitRect types uS vS st.1 p :: new, ?_, ?_, ?_, ?_, ?_⟩
        · simp only [List.foldl_cons]
          rw [hstep, h1]
          simp
        · simp only [List.foldl_cons]
          rw [hstep, cellsUnion_cons,
            Finset.union_comm (emitRect types uS vS st.1 p).cells,
            ← Finset.union_assoc, h2]
          exact Finset.sdiff_union_of_subset hcells
        · simp only [List.foldl_cons]
          rw [hstep, cellsUnion_cons, Finset.disjoint_union_right]
          exact ⟨Finset.disjoint_of_subset_left hmasksub Finset.sdiff_disjoint, h3⟩
        · refine List.Pairwise.cons ?_ h4
          intro r2 hr2
          have hsub2 : r2.cells ⊆ st.1 \ (emitRect types uS vS st.1 p).cells :=
            (h5 r2 hr2).2.2.1
          exact (Finset.disjoint_of_subset_left hsub2 Finset.sdiff_disjoint).symm
        · intro r hr
          rcases List.mem_cons.mp hr with rfl | hr
          · refine ⟨emitRect_width_pos types uS vS st.1 p,
              emitRect_height_pos types uS vS st.1 p, hcells, ?_⟩
            intro q hq
            rw [(emitRect_cells_subset types uS vS st.1 p hp q hq).2,
              emitRect_v, emitRect_u]
          · obtain ⟨hw, hh, hsub2, hty⟩ := h5 r hr
            exact ⟨hw, hh,
              fun q hq => (Finset.mem_sdiff.mp (hsub2 hq)).1, hty⟩
      · have hstep : scanStep types uS vS st p = st := by
          unfold scanStep
          rw [if_neg hp]
        obtain ⟨new, h1, h2, h3, h4, h5⟩ := ih st
        refine ⟨new, ?_, ?_, ?_, h4, h5⟩ <;>
          simp only [List.foldl_cons] <;> rw [hstep] <;> assumption

lemma foldl_mask_empty (types : MaskCell → VoxelType) (uS vS : ℕ)
    (l : List MaskCell) (st : Finset MaskCell × List SliceRect)
    (h : ∀ q ∈ st.1, q ∈ l) :
    (l.foldl (scanStep types uS vS) st).1 = ∅ := by
  induction l generalizing st with
  | nil =>
      exact Finset.eq_empty_of_forall_not_mem (fun q hq => by simpa using h q hq)
  | cons p l ih =>
      simp only [List.foldl_cons]
      apply ih
      intro q hq
      by_cases hp : p ∈ st.1
      · have hstep : scanStep types uS vS st p =
            (st.1 \ (emitRect types uS vS st.1 p).cells,
             st.2 ++ [emitRect types uS vS st.1 p]) := by
          unfold scanStep
          rw [if_pos hp]
        rw [hstep] at hq
        obtain ⟨hq1, hq2⟩ := Finset.mem_sdiff.mp hq
        have hqp : q ≠ p := by
          rintro rfl
          exact hq2 (emitRect_anchor_mem types uS vS st.1 q)
        rcases List.mem_cons.mp (h q hq1) with heq | hmem
        · exact absurd heq hqp
        · exact hmem
      · have hstep : scanStep types uS vS st p = st := by
          unfold scanStep
          rw [if_neg hp]
        rw [hstep] at hq
        have hqp : q ≠ p := by
          rintro rfl
          exact hp hq
        rcases List.mem_cons.mp (h q hq) with heq | hmem
        · exact absurd heq hqp
        · exact hmem

lemma mem_scanOrder {vS uS : ℕ} {q : MaskCell} :
    q ∈ scanOrder vS uS ↔ q.1 < vS ∧ q.2 < uS := by
  obtain ⟨v, u⟩ := q
  simp only [scanOrder, List.mem_flatMap, List.mem_map, List.mem_range]
  constructor
  · rintro ⟨a, ha, b, hb, heq⟩
    obtain ⟨rfl, rfl⟩ : a = v ∧ b = u := by
      simpa [Prod.mk.injEq] using heq
    exact ⟨ha, hb⟩
  · rintro ⟨hv, hu⟩
    exact ⟨v, hv, u, hu, rfl⟩

lemma countP_cells_eq_one (rs : List SliceRect)
    (hpw : List.Pairwise (fun r r2 => Disjoint r.cells r2.cells) rs)
    (q : MaskCell) (hq : q ∈ cellsUnion rs) :
    rs.countP (fun r => decide (q ∈ r.cells)) = 1 := by
  induction rs with
  | nil => simp [cellsUnion_nil] at hq
  | cons r rs ih =>
      rw [List.pairwise_cons] at hpw
      rw [List.countP_cons]
      by_cases hqr : q ∈ r.cells
      · have hzero : rs.countP (fun r2 => decide (q ∈ r2.cells)) = 0 := by
          rw [List.countP_eq_zero]
          intro r2 hr2
          simp only [decide_eq_true_eq]
          intro hq2
          exact (Finset.disjoint_left.mp (hpw.1 r2 hr2)) hqr hq2
        simp [hzero, hqr]
      · rw [cellsUnion_cons, Finset.mem_union] at hq
        rcases hq with hq | hq
        · exact absurd hq hqr
        · simp [ih hpw.2 hq, hqr]

/-- The partition property of one greedy slice scan, for any starting mask
whose cells lie inside the slice bounds: the emitted rectangles have
positive dimensions and type-constant cells drawn from the mask, their
cells are pairwise disjoint and cover the mask exactly, and the areas sum
to the number of mask cells. -/
theorem greedyScanSlice_partition (types : MaskCell → VoxelType) (uS vS : ℕ)
    (mask0 : Finset MaskCell) (hb : ∀ q ∈ mask0, q.1 < vS ∧ q.2 < uS) :
    cellsUnion (greedyScanSlice types uS vS mask0) = mask0 ∧
    List.Pairwise (fun r r2 => Disjoint r.cells r2.cells)
      (greedyScanSlice types uS vS mask0) ∧
    (∀ r ∈ greedyScanSlice types uS vS mask0, 1 ≤ r.width ∧ 1 ≤ r.height ∧
      r.cells ⊆ mask0 ∧ ∀ q ∈ r.cells, types q = types (r.v, r.u)) ∧
    ((greedyScanSlice types uS vS mask0).map
      (fun r => r.width * r.height)).sum = mask0.card := by
  obtain ⟨new, h1, h2, h3, h4, h5⟩ :=
    foldl_partition types uS vS (scanOrder vS uS) (mask0, [])
  have hempty : ((scanOrder vS uS).foldl (scanStep types uS vS) (mask0, [])).1 = ∅ :=
    foldl_mask_empty types uS vS (scanOrder vS uS) (mask0, [])
      (fun q hq => mem_scanOrder.mpr (hb q hq))
  have hrects : greedyScanSlice types uS vS mask0 = new := by
    unfold greedyScanSlice
    rw [h1]
    simp
  rw [hempty, Finset.empty_union] at h2
  dsimp only at h2 h5
  rw [hrects]
  refine ⟨h2, h4, h5, ?_⟩
  have hcard := card_cellsUnion new h4
  rw [h2] at hcard
  rw [hcard]
  congr 1
  apply List.map_congr_left
  intro r hr
  rw [SliceRect.cells.eq_def, rectCells_card]

lemma sliceMask_bounds (shouldRenderFaceFunc : ℤ → ℤ → ℤ → Direction → Bool)
    (sx sy sz : ℕ) (d : Direction) (w : ℕ) :
    ∀ q ∈ sliceMask shouldRenderFaceFunc sx sy sz d w,
      q.1 < axisSize sx sy sz (dimV d) ∧ q.2 < axisSize sx sy sz (dimU d) := by
  intro q hq
  unfold sliceMask at hq
  obtain ⟨hmem, _⟩ := Finset.mem_filter.mp hq
  obtain ⟨h1, h2⟩ := Finset.mem_product.mp hmem
  exact ⟨Finset.mem_range.mp h1, Finset.mem_range.mp h2⟩

/-- C1: in every slice of every direction, the merged rectangles emitted by
the greedy scan of `buildGreedyMesh` exactly partition the mask-true cells:
each set cell is covered by exactly one emitted rectangle, every emitted
rectangle lies inside the mask, and the areas (width × height) sum to the
number of set cells. -/
theorem c1_greedy_slice_partition (sx sy sz : ℕ)
    (getVoxelFunc : ℤ → ℤ → ℤ → VoxelType)
    (shouldRenderFaceFunc : ℤ → ℤ → ℤ → Direction → Bool)
    (d : Direction) (w : ℕ) :
    (∀ q ∈ sliceMask shouldRenderFaceFunc sx sy sz d w,
      (greedyScanSlice (sliceTypes getVoxelFunc d w) (axisSize sx sy sz (dimU d))
        (axisSize sx sy sz (dimV d))
        (sliceMask shouldRenderFaceFunc sx sy sz d w)).countP
        (fun r => decide (q ∈ r.cells)) = 1) ∧
    (∀ r ∈ greedyScanSlice (sliceTypes getVoxelFunc d w) (axisSize sx sy sz (dimU d))
        (axisSize sx sy sz (dimV d)) (sliceMask shouldRenderFaceFunc sx sy sz d w),
      r.cells ⊆ sliceMask shouldRenderFaceFunc sx sy sz d w) ∧
    ((greedyScanSlice (sliceTypes getVoxelFunc d w) (axisSize sx sy sz (dimU d))
        (axisSize sx sy sz (dimV d))
        (sliceMask shouldRenderFaceFunc sx sy sz d w)).map
      (fun r => r.width * r.height)).sum =
      (sliceMask shouldRenderFaceFunc sx sy sz d w).card := by
  have hb := sliceMask_bounds shouldRenderFaceFunc sx sy sz d w
  obtain ⟨hcover, hpw, hsub, hsum⟩ :=
    greedyScanSlice_partition (sliceTypes getVoxelFunc d w)
      (axisSize sx sy sz (dimU d)) (axisSize sx sy sz (dimV d))
      (sliceMask shouldRenderFaceFunc sx sy sz d w) hb
  refine ⟨?_, fun r hr => (hsub r hr).2.2.1, hsum⟩
  intro q hq
  apply countP_cells_eq_one _ hpw
  rw [hcover]
  exact hq

/-- Witness for C1 on a concrete 1×1×1 slice with an always-true mask. -/
theorem c1_greedy_slice_partition_witness :
    (0, 0) ∈ sliceMask (fun _ _ _ _ => true) 1 1 1 Direction.Front 0 ∧
    (greedyScanSlice (sliceTypes (fun _ _ _ => VoxelType.Stone) Direction.Front 0)
      (axisSize 1 1 1 (dimU Direction.Front)) (axisSize 1 1 1 (dimV Direction.Front))
      (sliceMask (fun _ _ _ _ => true) 1 1 1 Direction.Front 0)).countP
      (fun r => decide ((0, 0) ∈ r.cells)) = 1 :=
  ⟨by decide,
   (c1_greedy_slice_partition 1 1 1 (fun _ _ _ => VoxelType.Stone)
     (fun _ _ _ _ => true) Direction.Front 0).1 (0, 0) (by decide)⟩

/-! ## C8: termination of the greedy scan -/

/-- C8: every merged face emitted by `buildGreedyMesh` has width ≥ 1 and
height ≥ 1, and each scan step that fires (an unprocessed mask cell)
strictly decreases the number of remaining mask-true cells, so the
per-slice scan — and with it the finite 6-direction sweep — terminates. -/
theorem c8_greedy_termination (sx sy sz : ℕ)
    (getVoxelFunc : ℤ → ℤ → ℤ → VoxelType)
    (shouldRenderFaceFunc : ℤ → ℤ → ℤ → Direction → Bool)
    (chunkPos : ℤ × ℤ × ℤ) :
    (∀ face ∈ buildGreedyMeshFaces sx sy sz getVoxelFunc shouldRenderFaceFunc chunkPos,
      1 ≤ face.size.1 ∧ 1 ≤ face.size.2) ∧
    (∀ (types : MaskCell → VoxelType) (uS vS : ℕ)
      (st : Finset MaskCell × List SliceRect) (p : MaskCell),
      p ∈ st.1 → (scanStep types uS vS st p).1.card < st.1.card) := by
  constructor
  · intro face hface
    unfold buildGreedyMeshFaces at hface
    simp only [List.mem_flatMap, List.mem_map, List.mem_range] at hface
    obtain ⟨d, hd, w, hw, r, hr, rfl⟩ := hface
    obtain ⟨_, _, hsub, _⟩ :=
      greedyScanSlice_partition (sliceTypes getVoxelFunc d w)
        (axisSize sx sy sz (dimU d)) (axisSize sx sy sz (dimV d))
        (sliceMask shouldRenderFaceFunc sx sy sz d w)
        (sliceMask_bounds shouldRenderFaceFunc sx sy sz d w)
    obtain ⟨hw1, hh1, _, _⟩ := hsub r hr
    exact ⟨hw1, hh1⟩
  · intro types uS vS st p hp
    have hstep : (scanStep types uS vS st p).1 =
        st.1 \ (emitRect types uS vS st.1 p).cells := by
      unfold scanStep
      rw [if_pos hp]
    rw [hstep]
    apply Finset.card_lt_card
    rw [Finset.ssubset_iff_of_subset Finset.sdiff_subset]
    exact ⟨p, hp, fun hmem =>
      (Finset.mem_sdiff.mp hmem).2 (emitRect_anchor_mem types uS vS st.1 p)⟩

/-- Witness for C8 on a concrete single-cell build and a concrete firing
scan step. -/
theorem c8_greedy_termination_witness :
    (∀ face ∈ buildGreedyMeshFaces 1 1 1 (fun _ _ _ => VoxelType.Stone)
        (fun _ _ _ _ => true) (0, 0, 0),
      1 ≤ face.size.1 ∧ 1 ≤ face.size.2) ∧
    (scanStep (fun _ => VoxelType.Stone) 1 1 ({(0, 0)}, []) (0, 0)).1.card <
      ({((0 : ℕ), (0 : ℕ))} : Finset MaskCell).card :=
  ⟨(c8_greedy_termination 1 1 1 (fun _ _ _ => VoxelType.Stone)
      (fun _ _ _ _ => true) (0, 0, 0)).1,
   (c8_greedy_termination 1 1 1 (fun _ _ _ => VoxelType.Stone)
      (fun _ _ _ _ => true) (0, 0, 0)).2 (fun _ => VoxelType.Stone) 1 1
      ({(0, 0)}, []) (0, 0) (by decide)⟩

/-! ## C5 theory: adjacency in a slice mask -/

/-- Two edge-adjacent mask-true cells of the same type exist in the slice
(the configuration greedy merging can always merge, in the `u` or the `v`
direction). -/
def sliceHasAdjacentPair (mask0 : Finset MaskCell) (types : MaskCell → VoxelType) : Prop :=
  ∃ p : MaskCell,
    (p ∈ mask0 ∧ (p.1, p.2 + 1) ∈ mask0 ∧ types p = types (p.1, p.2 + 1)) ∨
    (p ∈ mask0 ∧ (p.1 + 1, p.2) ∈ mask0 ∧ types p = types (p.1 + 1, p.2))

lemma emitRect_unit_of_no_adjacent (types : MaskCell → VoxelType) (uS vS : ℕ)
    (mask0 mask : Finset MaskCell) (hsub : mask ⊆ mask0)
    (hno : ¬ sliceHasAdjacentPair mask0 types) (p : MaskCell) (hp : p ∈ mask) :
    (emitRect types uS vS mask p).width = 1 ∧ (emitRect types uS vS mask p).height = 1 := by
  have hwidth : (emitRect types uS vS mask p).width = 1 := by
    cases hok : widthOk mask types (types p) p.1 p.2 uS 1 with
    | false => exact growLoop_of_not_ok _ _ _ hok
    | true =>
        exfalso
        simp only [widthOk, Bool.and_eq_true, decide_eq_true_eq] at hok
        exact hno ⟨p, Or.inl ⟨hsub hp, hsub hok.1.2, hok.2.symm⟩⟩
  refine ⟨hwidth, ?_⟩
  have hh : emitRect types uS vS mask p =
      ⟨p.1, p.2, growLoop (widthOk mask types (types p) p.1 p.2 uS) uS 1,
        growLoop (heightOk mask types (types p) p.1 p.2
          (growLoop (widthOk mask types (types p) p.1 p.2 uS) uS 1) vS) vS 1⟩ := rfl
  cases hok : heightOk mask types (types p) p.1 p.2
      (growLoop (widthOk mask types (types p) p.1 p.2 uS) uS 1) vS 1 with
  | false =>
      show growLoop _ vS 1 = 1
      exact growLoop_of_not_ok _ _ _ hok
  | true =>
      exfalso
      simp only [heightOk, Bool.and_eq_true, decide_eq_true_eq] at hok
      have hwpos : 0 < growLoop (widthOk mask types (types p) p.1 p.2 uS) uS 1 :=
        growLoop_le _ _ _
      obtain ⟨hmem, hty⟩ := hok.2 0 hwpos
      simp only [Nat.add_zero] at hmem hty
      exact hno ⟨p, Or.inr ⟨hsub hp, hsub hmem, hty.symm⟩⟩

lemma foldl_unit_rects (types : MaskCell → VoxelType) (uS vS : ℕ)
    (mask0 : Finset MaskCell) (hno : ¬ sliceHasAdjacentPair mask0 types)
    (l : List MaskCell) (st : Finset MaskCell × List SliceRect)
    (hsub : st.1 ⊆ mask0) :
    ∀ r ∈ (l.foldl (scanStep types uS vS) st).2,
      r ∈ st.2 ∨ (r.width = 1 ∧ r.height = 1) := by
  induction l generalizing st with
  | nil => exact fun r hr => Or.inl hr
  | cons p l ih =>
      intro r hr
      simp only [List.foldl_cons] at hr
      by_cases hp : p ∈ st.1
      · have hstep : scanStep types uS vS st p =
            (st.1 \ (emitRect types uS vS st.1 p).cells,
             st.2 ++ [emitRect types uS vS st.1 p]) := by
          unfold scanStep
          rw [if_pos hp]
        rw [hstep] at hr
        have hsub2 : st.1 \ (emitRect types uS vS st.1 p).cells ⊆ mask0 :=
          fun q hq => hsub (Finset.mem_sdiff.mp hq).1
        rcases ih (st.1 \ (emitRect types uS vS st.1 p).cells,
            st.2 ++ [emitRect types uS vS st.1 p]) hsub2 r hr with hmem | hunit
        · rcases List.mem_append.mp hmem with hmem2 | hmem2
          · exact Or.inl hmem2
          · rcases List.mem_singleton.mp hmem2 with rfl
            exact Or.inr (emitRect_unit_of_no_adjacent types uS vS mask0 st.1 hsub hno p hp)
        · exact Or.inr hunit
      · have hstep : scanStep types uS vS st p = st := by
          unfold scanStep
          rw [if_neg hp]
        rw [hstep] at hr
        exact ih st hsub r hr

lemma length_le_sum_map (l : List SliceRect) (f : SliceRect → ℕ)
    (h : ∀ r ∈ l, 1 ≤ f r) : l.length ≤ (l.map f).sum := by
  induction l with
  | nil => simp
  | cons r l ih =>
      simp only [List.length_cons, List.map_cons, List.sum_cons]
      have h1 := h r (List.mem_cons_self r l)
      have h2 := ih (fun r2 hr2 => h r2 (List.mem_cons_of_mem r hr2))
      omega

lemma sum_map_one (l : List SliceRect) :
    (l.map (fun _ => (1 : ℕ))).sum = l.length := by
  induction l with
  | nil => simp
  | cons r l ih =>
      simp only [List.map_cons, List.sum_cons, List.length_cons, ih]
      omega

/-- Under no adjacency, every emitted rectangle is 1×1 and the greedy scan
emits exactly one rectangle per mask-true cell. -/
lemma greedyScanSlice_length_of_no_adjacent (types : MaskCell → VoxelType)
    (uS vS : ℕ) (mask0 : Finset MaskCell)
    (hb : ∀ q ∈ mask0, q.1 < vS ∧ q.2 < uS)
    (hno : ¬ sliceHasAdjacentPair mask0 types) :
    (greedyScanSlice types uS vS mask0).length = mask0.card := by
  obtain ⟨_, _, _, hsum⟩ := greedyScanSlice_partition types uS vS mask0 hb
  have hunit : ∀ r ∈ greedyScanSlice types uS vS mask0,
      r.width = 1 ∧ r.height = 1 := by
    intro r hr
    rcases foldl_unit_rects types uS vS mask0 hno (scanOrder vS uS) (mask0, [])
        (fun q hq => hq) r hr with hmem | hunit
    · simp at hmem
    · exact hunit
  rw [← hsum]
  have hmap : (greedyScanSlice types uS vS mask0).map (fun r => r.width * r.height) =
      (greedyScanSlice types uS vS mask0).map (fun _ => (1 : ℕ)) := by
    apply List.map_congr_left
    intro r hr
    rw [(hunit r hr).1, (hunit r hr).2]
  rw [hmap, sum_map_one]

lemma range_split (n k : ℕ) (hk : k < n) :
    List.range n = List.range k ++ k :: List.range' (k + 1) (n - k - 1) := by
  rw [List.range_eq_range', List.range_eq_range']
  have e1 : n = (n - k) + k := by omega
  conv_lhs => rw [e1]
  rw [← List.range'_append_1 0 k (n - k)]
  congr 1
  have e2 : n - k = (n - k - 1) + 1 := by omega
  rw [Nat.zero_add]
  nth_rewrite 1 [e2]
  rw [List.range'_succ]

lemma scanOrder_split (vS uS cv cu : ℕ) (hv : cv < vS) (hu : cu < uS) :
    ∃ l1 l2, scanOrder vS uS = l1 ++ (cv, cu) :: l2 ∧
      ∀ q ∈ l1, q.1 < cv ∨ (q.1 = cv ∧ q.2 < cu) := by
  refine ⟨(List.range cv).flatMap (fun v => (List.range uS).map (fun u => (v, u))) ++
      (List.range cu).map (fun u => (cv, u)),
    (List.range' (cu + 1) (uS - cu - 1)).map (fun u => (cv, u)) ++
      (List.range' (cv + 1) (vS - cv - 1)).flatMap
        (fun v => (List.range uS).map (fun u => (v, u))), ?_, ?_⟩
  · unfold scanOrder
    rw [range_split vS cv hv, List.flatMap_append, List.flatMap_cons,
      range_split uS cu hu, List.map_append, List.map_cons]
    simp [List.append_assoc]
  · intro q hq
    rcases List.mem_append.mp hq with hq | hq
    · left
      simp only [List.mem_flatMap, List.mem_map, List.mem_range] at hq
      obtain ⟨v, hv2, u, _, heq⟩ := hq
      rw [← heq]
      exact hv2
    · right
      simp only [List.mem_map, List.mem_range] at hq
      obtain ⟨u, hu2, heq⟩ := hq
      rw [← heq]
      exact ⟨rfl, hu2⟩

lemma emitRect_big_of_adjacent (types : MaskCell → VoxelType) (uS vS : ℕ)
    (mask : Finset MaskCell) (c c2 : MaskCell) (hc : c ∈ mask) (hc2 : c2 ∈ mask)
    (hadj : c2 = (c.1, c.2 + 1) ∨ c2 = (c.1 + 1, c.2)) (hty : types c = types c2)
    (hb : ∀ q ∈ mask, q.1 < vS ∧ q.2 < uS) :
    2 ≤ (emitRect types uS vS mask c).width * (emitRect types uS vS mask c).height := by
  have hwpos := emitRect_width_pos types uS vS mask c
  have hhpos := emitRect_height_pos types uS vS mask c
  rcases hadj with rfl | rfl
  · have huS : c.2 + 1 < uS := by
      have := (hb _ hc2).2
      simpa using this
    have hok : widthOk mask types (types c) c.1 c.2 uS 1 = true := by
      simp only [widthOk, Bool.and_eq_true, decide_eq_true_eq]
      exact ⟨⟨huS, hc2⟩, hty.symm⟩
    have hw2 : 2 ≤ (emitRect types uS vS mask c).width := by
      show 2 ≤ growLoop (widthOk mask types (types c) c.1 c.2 uS) uS 1
      exact growLoop_ge_succ _ uS 1 (by omega) hok
    calc 2 ≤ (emitRect types uS vS mask c).width := hw2
      _ ≤ (emitRect types uS vS mask c).width * (emitRect types uS vS mask c).height :=
        Nat.le_mul_of_pos_right _ hhpos
  · have hvS : c.1 + 1 < vS := by
      have := (hb _ hc2).1
      simpa using this
    by_cases hw2 : 2 ≤ (emitRect types uS vS mask c).width
    · calc 2 ≤ (emitRect types uS vS mask c).width := hw2
        _ ≤ (emitRect types uS vS mask c).width * (emitRect types uS vS mask c).height :=
          Nat.le_mul_of_pos_right _ hhpos
    · have hw1 : growLoop (widthOk mask types (types c) c.1 c.2 uS) uS 1 = 1 := by
        have h1 : (emitRect types uS vS mask c).width =
            growLoop (widthOk mask types (types c) c.1 c.2 uS) uS 1 := rfl
        omega
      have hok : heightOk mask types (types c) c.1 c.2
          (growLoop (widthOk mask types (types c) c.1 c.2 uS) uS 1) vS 1 = true := by
        simp only [heightOk, Bool.and_eq_true, decide_eq_true_eq]
        refine ⟨hvS, ?_⟩
        intro du hdu
        rw [hw1] at hdu
        have hdu0 : du = 0 := by omega
        subst hdu0
        constructor
        · simpa using hc2
        · simpa using hty.symm
      have hh2 : 2 ≤ (emitRect types uS vS mask c).height := by
        show 2 ≤ growLoop (heightOk mask types (types c) c.1 c.2
          (growLoop (widthOk mask types (types c) c.1 c.2 uS) uS 1) vS) vS 1
        exact growLoop_ge_succ _ vS 1 (by omega) hok
      calc 2 ≤ (emitRect types uS vS mask c).height := hh2
        _ ≤ (emitRect types uS vS mask c).width * (emitRect types uS vS mask c).height :=
          Nat.le_mul_of_pos_left _ hwpos

lemma foldl_big_rect (types : MaskCell → VoxelType) (uS vS : ℕ) (c c2 : MaskCell)
    (hadj : c2 = (c.1, c.2 + 1) ∨ c2 = (c.1 + 1, c.2)) (hty : types c = types c2) :
    ∀ (l1 l2 : List MaskCell) (st : Finset MaskCell × List SliceRect),
      c ∉ l1 → c2 ∉ l1 → c ∈ st.1 → c2 ∈ st.1 →
      (∀ q ∈ st.1, q.1 < vS ∧ q.2 < uS) →
      ∃ r ∈ ((l1 ++ c :: l2).foldl (scanStep types uS vS) st).2,
        2 ≤ r.width * r.height := by
  intro l1
  induction l1 with
  | nil =>
      intro l2 st _ _ hc hc2 hb
      simp only [List.nil_append, List.foldl_cons]
      have hstep : scanStep types uS vS st c =
          (st.1 \ (emitRect types uS vS st.1 c).cells,
           st.2 ++ [emitRect types uS vS st.1 c]) := by
        unfold scanStep
        rw [if_pos hc]
      obtain ⟨new, hnew⟩ := foldl_rects_prefix types uS vS l2 (scanStep types uS vS st c)
      refine ⟨emitRect types uS vS st.1 c, ?_,
        emitRect_big_of_adjacent types uS vS st.1 c c2 hc hc2 hadj hty hb⟩
      rw [hnew, hstep]
      simp
  | cons p l1 ih =>
      intro l2 st hcl1 hc2l1 hc hc2 hb
      have hpc : p ≠ c := by
        rintro rfl
        exact hcl1 (List.mem_cons_self p l1)
      have hpc2 : p ≠ c2 := by
        rintro rfl
        exact hc2l1 (List.mem_cons_self p l1)
      have hcl1x : c ∉ l1 := fun h => hcl1 (List.mem_cons_of_mem p h)
      have hc2l1x : c2 ∉ l1 := fun h => hc2l1 (List.mem_cons_of_mem p h)
      simp only [List.cons_append, List.foldl_cons]
      by_cases hp : p ∈ st.1
      · have hstep : scanStep types uS vS st p =
            (st.1 \ (emitRect types uS vS st.1 p).cells,
             st.2 ++ [emitRect types uS vS st.1 p]) := by
          unfold scanStep
          rw [if_pos hp]
        by_cases hbig : 2 ≤ (emitRect types uS vS st.1 p).width *
            (emitRect types uS vS st.1 p).height
        · obtain ⟨new, hnew⟩ := foldl_rects_prefix types uS vS (l1 ++ c :: l2)
            (scanStep types uS vS st p)
          refine ⟨emitRect types uS vS st.1 p, ?_, hbig⟩
          rw [hnew, hstep]
          simp
        · have hwpos := emitRect_width_pos types uS vS st.1 p
          have hhpos := emitRect_height_pos types uS vS st.1 p
          have hw1 : (emitRect types uS vS st.1 p).width = 1 := by
            by_contra hne
            exact hbig (le_trans (by omega)
              (Nat.le_mul_of_pos_right (emitRect types uS vS st.1 p).width hhpos))
          have hh1 : (emitRect types uS vS st.1 p).height = 1 := by
            by_contra hne
            exact hbig (le_trans (by omega)
              (Nat.le_mul_of_pos_left (emitRect types uS vS st.1 p).height hwpos))
          have hcells : (emitRect types uS vS st.1 p).cells = {p} := by
            show rectCells (emitRect types uS vS st.1 p).v (emitRect types uS vS st.1 p).u
              (emitRect types uS vS st.1 p).width (emitRect types uS vS st.1 p).height = {p}
            rw [emitRect_v, emitRect_u, hw1, hh1, rectCells_unit]
          apply ih l2 (scanStep types uS vS st p) hcl1x hc2l1x
          · rw [hstep]
            exact Finset.mem_sdiff.mpr ⟨hc, by
              rw [hcells]
              simp only [Finset.mem_singleton]
              exact fun h => hpc h.symm⟩
          · rw [hstep]
            exact Finset.mem_sdiff.mpr ⟨hc2, by
              rw [hcells]
              simp only [Finset.mem_singleton]
              exact fun h => hpc2 h.symm⟩
          · rw [hstep]
            exact fun q hq => hb q (Finset.mem_sdiff.mp hq).1
      · have hstep : scanStep types uS vS st p = st := by
          unfold scanStep
          rw [if_neg hp]
        rw [hstep]
        exact ih l2 st hcl1x hc2l1x hc hc2 hb

lemma length_lt_sum_map (l : List SliceRect) (f : SliceRect → ℕ)
    (hall : ∀ r ∈ l, 1 ≤ f r) (r : SliceRect) (hr : r ∈ l) (hbig : 2 ≤ f r) :
    l.length < (l.map f).sum := by
  obtain ⟨s, t, rfl⟩ := List.append_of_mem hr
  rw [List.map_append, List.map_cons, List.sum_append, List.sum_cons,
    List.length_append, List.length_cons]
  have h1 := length_le_sum_map s f (fun x hx => hall x (by simp [hx]))
  have h2 := length_le_sum_map t f (fun x hx => hall x (by simp [hx]))
  omega

/-- Under a same-type edge adjacency in the mask, the greedy scan emits at
least one rectangle of area ≥ 2, so it emits strictly fewer rectangles than
there are mask-true cells. -/
lemma greedyScanSlice_length_lt_of_adjacent (types : MaskCell → VoxelType)
    (uS vS : ℕ) (mask0 : Finset MaskCell)
    (hb : ∀ q ∈ mask0, q.1 < vS ∧ q.2 < uS)
    (hadj : sliceHasAdjacentPair mask0 types) :
    (greedyScanSlice types uS vS mask0).length < mask0.card := by
  obtain ⟨p, hp⟩ := hadj
  have hmain : ∃ c2, (p ∈ mask0 ∧ c2 ∈ mask0 ∧ types p = types c2) ∧
      (c2 = (p.1, p.2 + 1) ∨ c2 = (p.1 + 1, p.2)) := by
    rcases hp with ⟨h1, h2, h3⟩ | ⟨h1, h2, h3⟩
    · exact ⟨(p.1, p.2 + 1), ⟨h1, h2, h3⟩, Or.inl rfl⟩
    · exact ⟨(p.1 + 1, p.2), ⟨h1, h2, h3⟩, Or.inr rfl⟩
  obtain ⟨c2, ⟨hpm, hc2m, hty⟩, hadj2⟩ := hmain
  obtain ⟨l1, l2, hsplit, hbefore⟩ :=
    scanOrder_split vS uS p.1 p.2 (hb p hpm).1 (hb p hpm).2
  have hcnot : p ∉ l1 := by
    intro h
    have := hbefore p h
    omega
  have hc2not : c2 ∉ l1 := by
    intro h
    have := hbefore c2 h
    rcases hadj2 with rfl | rfl <;> simp at this <;> omega
  obtain ⟨r, hr, hbig⟩ := foldl_big_rect types uS vS p c2 hadj2 hty l1 l2
    (mask0, []) hcnot hc2not hpm hc2m hb
  obtain ⟨_, _, hsub, hsum⟩ := greedyScanSlice_partition types uS vS mask0 hb
  have hrects : greedyScanSlice types uS vS mask0 =
      ((l1 ++ p :: l2).foldl (scanStep types uS vS) (mask0, [])).2 := by
    unfold greedyScanSlice
    rw [hsplit]
  rw [← hrects] at hr
  have hall : ∀ r2 ∈ greedyScanSlice types uS vS mask0, 1 ≤ r2.width * r2.height := by
    intro r2 hr2
    obtain ⟨h1, h2, _, _⟩ := hsub r2 hr2
    exact Nat.mul_pos h1 h2
  rw [← hsum]
  exact length_lt_sum_map _ _ hall r hr hbig

/-- Embeds the `totalFacesBeforeMerging` counter of `buildGreedyMesh`: the
number of mask-true cells summed over all six directions and all slices
(the naive one-quad-per-visible-face count). -/
def naiveFaceCount (sx sy sz : ℕ)
    (shouldRenderFaceFunc : ℤ → ℤ → ℤ → Direction → Bool) : ℕ :=
  (allDirections.map (fun d =>
    ((List.range (axisSize sx sy sz (dimW d))).map (fun w =>
      (sliceMask shouldRenderFaceFunc sx sy sz d w).card)).sum)).sum

/-- Some processed slice of some direction contains two edge-adjacent
same-type visible cells. -/
def buildHasAdjacentPair (sx sy sz : ℕ) (getVoxelFunc : ℤ → ℤ → ℤ → VoxelType)
    (shouldRenderFaceFunc : ℤ → ℤ → ℤ → Direction → Bool) : Prop :=
  ∃ d : Direction, ∃ w : ℕ, w < axisSize sx sy sz (dimW d) ∧
    sliceHasAdjacentPair (sliceMask shouldRenderFaceFunc sx sy sz d w)
      (sliceTypes getVoxelFunc d w)

lemma mem_allDirections (d : Direction) : d ∈ allDirections := by
  cases d <;> simp [allDirections]

lemma sum_map_le {α : Type} (l : List α) (f g : α → ℕ)
    (h : ∀ a ∈ l, f a ≤ g a) : (l.map f).sum ≤ (l.map g).sum := by
  induction l with
  | nil => simp
  | cons a l ih =>
      simp only [List.map_cons, List.sum_cons]
      have h1 := h a (List.mem_cons_self a l)
      have h2 := ih (fun b hb => h b (List.mem_cons_of_mem a hb))
      omega

lemma sum_map_eq_iff {α : Type} (l : List α) (f g : α → ℕ)
    (h : ∀ a ∈ l, f a ≤ g a) :
    (l.map f).sum = (l.map g).sum ↔ ∀ a ∈ l, f a = g a := by
  induction l with
  | nil => simp
  | cons a l ih =>
      simp only [List.map_cons, List.sum_cons]
      have h1 := h a (List.mem_cons_self a l)
      have h2 := sum_map_le l f g (fun b hb => h b (List.mem_cons_of_mem a hb))
      have ih2 := ih (fun b hb => h b (List.mem_cons_of_mem a hb))
      constructor
      · intro heq
        have hfa : f a = g a ∧ (l.map f).sum = (l.map g).sum := by omega
        intro b hb
        rcases List.mem_cons.mp hb with rfl | hb
        · exact hfa.1
        · exact (ih2.mp hfa.2) b hb
      · intro hall
        have hfa : f a = g a := hall a (List.mem_cons_self a l)
        have hrest : (l.map f).sum = (l.map g).sum :=
          ih2.mpr (fun b hb => hall b (List.mem_cons_of_mem a hb))
        omega

lemma buildGreedyMeshFaces_length (sx sy sz : ℕ)
    (getVoxelFunc : ℤ → ℤ → ℤ → VoxelType)
    (shouldRenderFaceFunc : ℤ → ℤ → ℤ → Direction → Bool)
    (chunkPos : ℤ × ℤ × ℤ) :
    (buildGreedyMeshFaces sx sy sz getVoxelFunc shouldRenderFaceFunc chunkPos).length =
      (allDirections.map (fun d =>
        ((List.range (axisSize sx sy sz (dimW d))).map (fun w =>
          (greedyScanSlice (sliceTypes getVoxelFunc d w)
            (axisSize sx sy sz (dimU d)) (axisSize sx sy sz (dimV d))
            (sliceMask shouldRenderFaceFunc sx sy sz d w)).length)).sum)).sum := by
  unfold buildGreedyMeshFaces
  rw [List.length_flatMap]
  congr 1
  apply List.map_congr_left
  intro d _
  simp only [Function.comp]
  rw [List.length_flatMap]
  congr 1
  apply List.map_congr_left
  intro w _
  simp only [Function.comp]
  rw [List.length_map]

/-- C5: the number of merged faces produced by `buildGreedyMesh` never
exceeds the naive per-visible-face count (the number of mask-true cells
over all slices), and the two are equal exactly when no two edge-adjacent
same-type visible cells exist in any slice. -/
theorem c5_merged_face_count (sx sy sz : ℕ)
    (getVoxelFunc : ℤ → ℤ → ℤ → VoxelType)
    (shouldRenderFaceFunc : ℤ → ℤ → ℤ → Direction → Bool)
    (chunkPos : ℤ × ℤ × ℤ) :
    (buildGreedyMeshFaces sx sy sz getVoxelFunc shouldRenderFaceFunc chunkPos).length ≤
      naiveFaceCount sx sy sz shouldRenderFaceFunc ∧
    ((buildGreedyMeshFaces sx sy sz getVoxelFunc shouldRenderFaceFunc chunkPos).length =
        naiveFaceCount sx sy sz shouldRenderFaceFunc ↔
      ¬ buildHasAdjacentPair sx sy sz getVoxelFunc shouldRenderFaceFunc) := by
  have hslice_le : ∀ (d : Direction) (w : ℕ),
      (greedyScanSlice (sliceTypes getVoxelFunc d w)
        (axisSize sx sy sz (dimU d)) (axisSize sx sy sz (dimV d))
        (sliceMask shouldRenderFaceFunc sx sy sz d w)).length ≤
      (sliceMask shouldRenderFaceFunc sx sy sz d w).card := by
    intro d w
    obtain ⟨_, _, hsub, hsum⟩ :=
      greedyScanSlice_partition (sliceTypes getVoxelFunc d w)
        (axisSize sx sy sz (dimU d)) (axisSize sx sy sz (dimV d))
        (sliceMask shouldRenderFaceFunc sx sy sz d w)
        (sliceMask_bounds shouldRenderFaceFunc sx sy sz d w)
    rw [← hsum]
    exact length_le_sum_map _ _ (fun r hr =>
      Nat.mul_pos (hsub r hr).1 (hsub r hr).2.1)
  have hslice_iff : ∀ (d : Direction) (w : ℕ),
      ((greedyScanSlice (sliceTypes getVoxelFunc d w)
        (axisSize sx sy sz (dimU d)) (axisSize sx sy sz (dimV d))
        (sliceMask shouldRenderFaceFunc sx sy sz d w)).length =
      (sliceMask shouldRenderFaceFunc sx sy sz d w).card ↔
      ¬ sliceHasAdjacentPair (sliceMask shouldRenderFaceFunc sx sy sz d w)
        (sliceTypes getVoxelFunc d w)) := by
    intro d w
    constructor
    · intro heq hadj
      exact absurd heq (Nat.ne_of_lt (greedyScanSlice_length_lt_of_adjacent
        (sliceTypes getVoxelFunc d w) _ _ _
        (sliceMask_bounds shouldRenderFaceFunc sx sy sz d w) hadj))
    · intro hno
      exact greedyScanSlice_length_of_no_adjacent _ _ _ _
        (sliceMask_bounds shouldRenderFaceFunc sx sy sz d w) hno
  have hinner_le : ∀ d ∈ allDirections,
      ((List.range (axisSize sx sy sz (dimW d))).map (fun w =>
        (greedyScanSlice (sliceTypes getVoxelFunc d w)
          (axisSize sx sy sz (dimU d)) (axisSize sx sy sz (dimV d))
          (sliceMask shouldRenderFaceFunc sx sy sz d w)).length)).sum ≤
      ((List.range (axisSize sx sy sz (dimW d))).map (fun w =>
        (sliceMask shouldRenderFaceFunc sx sy sz d w).card)).sum :=
    fun d _ => sum_map_le _ _ _ (fun w _ => hslice_le d w)
  constructor
  · rw [buildGreedyMeshFaces_length]
    unfold naiveFaceCount
    exact sum_map_le _ _ _ hinner_le
  · rw [buildGreedyMeshFaces_length]
    unfold naiveFaceCount
    rw [sum_map_eq_iff _ _ _ hinner_le]
    constructor
    · intro hall hadj
      obtain ⟨d, w, hw, hadj2⟩ := hadj
      have h1 := hall d (mem_allDirections d)
      have h2 := (sum_map_eq_iff _ _ _ (fun w2 _ => hslice_le d w2)).mp h1 w
        (List.mem_range.mpr hw)
      exact (hslice_iff d w).mp h2 hadj2
    · intro hno d _
      apply (sum_map_eq_iff _ _ _ (fun w2 _ => hslice_le d w2)).mpr
      intro w hw
      apply (hslice_iff d w).mpr
      intro hadj
      exact hno ⟨d, w, List.mem_range.mp hw, hadj⟩

/-! ## C4: world-space offset of merged-face start positions -/

/-- Counterexample to C4 as stated: a 1×1×1 chunk holding one Stone voxel
at chunk coordinate (0, 1, 0).  The claim predicts every face start to be
the local start offset by (cx·sizeX, cy·sizeY, cz·sizeZ) = (0, 1, 0), so
start.y = 1; the code multiplies the Y chunk coordinate by 0 — the six
emitted faces all start at (0, 0, 0). -/
theorem c4_start_offset_counterexample :
    (buildGreedyMeshFaces 1 1 1 (fun _ _ _ => VoxelType.Stone)
      (fun _ _ _ _ => true) ((0 : ℤ), (1 : ℤ), (0 : ℤ))).length = 6 ∧
    ∀ face ∈ buildGreedyMeshFaces 1 1 1 (fun _ _ _ => VoxelType.Stone)
      (fun _ _ _ _ => true) ((0 : ℤ), (1 : ℤ), (0 : ℤ)),
      face.start = ((0 : ℤ), (0 : ℤ), (0 : ℤ)) ∧
      face.start ≠ ((0 : ℤ) * 1 + 0, (1 : ℤ) * 1 + 0, (0 : ℤ) * 1 + 0) := by
  decide

/-- C4 (amended): every merged face's start is the basis-mapped local
anchor of its rectangle offset by the chunk's world origin, where the
origin is the chunk coordinate times the chunk size on the X and Z axes
but 0 on the Y axis (`chunkPos * ivec3(chunkSizeX, 0, chunkSizeZ)`). -/
theorem c4_start_offset_amended (sx sy sz : ℕ)
    (getVoxelFunc : ℤ → ℤ → ℤ → VoxelType)
    (shouldRenderFaceFunc : ℤ → ℤ → ℤ → Direction → Bool)
    (chunkPos : ℤ × ℤ × ℤ) :
    ∀ face ∈ buildGreedyMeshFaces sx sy sz getVoxelFunc shouldRenderFaceFunc chunkPos,
      ∃ (d : Direction) (w : ℕ) (r : SliceRect),
        w < axisSize sx sy sz (dimW d) ∧
        r ∈ greedyScanSlice (sliceTypes getVoxelFunc d w)
          (axisSize sx sy sz (dimU d)) (axisSize sx sy sz (dimV d))
          (sliceMask shouldRenderFaceFunc sx sy sz d w) ∧
        face = rectToMergedFace getVoxelFunc sx sz chunkPos d w r ∧
        face.start =
          (((uvwToXYZ d r.u r.v w).1 : ℤ) + chunkPos.1 * (sx : ℤ),
           ((uvwToXYZ d r.u r.v w).2.1 : ℤ) + chunkPos.2.1 * 0,
           ((uvwToXYZ d r.u r.v w).2.2 : ℤ) + chunkPos.2.2 * (sz : ℤ)) := by
  intro face hface
  unfold buildGreedyMeshFaces at hface
  simp only [List.mem_flatMap, List.mem_map, List.mem_range] at hface
  obtain ⟨d, _, w, hw, r, hr, rfl⟩ := hface
  exact ⟨d, w, r, hw, hr, rfl, rfl⟩

/-- Witness for C4 (amended) at a concrete single-voxel build. -/
theorem c4_start_offset_amended_witness :
    ∃ (d : Direction) (w : ℕ) (r : SliceRect),
      w < axisSize 1 1 1 (dimW d) ∧
      r ∈ greedyScanSlice (sliceTypes (fun _ _ _ => VoxelType.Stone) d w)
        (axisSize 1 1 1 (dimU d)) (axisSize 1 1 1 (dimV d))
        (sliceMask (fun _ _ _ _ => true) 1 1 1 d w) ∧
      (buildGreedyMeshFaces 1 1 1 (fun _ _ _ => VoxelType.Stone)
        (fun _ _ _ _ => true) ((0 : ℤ), (1 : ℤ), (0 : ℤ))).head? =
        some (rectToMergedFace (fun _ _ _ => VoxelType.Stone) 1 1
          ((0 : ℤ), (1 : ℤ), (0 : ℤ)) d w r) ∧
      (rectToMergedFace (fun _ _ _ => VoxelType.Stone) 1 1
          ((0 : ℤ), (1 : ℤ), (0 : ℤ)) d w r).start =
        (((uvwToXYZ d r.u r.v w).1 : ℤ) + 0 * 1,
         ((uvwToXYZ d r.u r.v w).2.1 : ℤ) + 1 * 0,
         ((uvwToXYZ d r.u r.v w).2.2 : ℤ) + 0 * 1) := by
  obtain ⟨d, w, r, h1, h2, h3, h4⟩ :=
    c4_start_offset_amended 1 1 1 (fun _ _ _ => VoxelType.Stone)
      (fun _ _ _ _ => true) ((0 : ℤ), (1 : ℤ), (0 : ℤ))
      (MergedFace.mk Direction.Front VoxelType.Stone (0, 0, 0) (1, 1))
      (by decide)
  exact ⟨d, w, r, h1, h2, by rw [← h3]; decide, by rw [← h3]; exact h4⟩

/-! ## C9: geometry emitter buffer shape -/

lemma sum_map_const_four {α : Type} (l : List α) :
    (l.map (fun _ => (4 : ℕ))).sum = 4 * l.length := by
  induction l with
  | nil => rfl
  | cons a l ih =>
      simp only [List.map_cons, List.sum_cons, List.length_cons, ih]
      omega

lemma generateMergedFaceVertices_length (face : MergedFace) :
    (generateMergedFaceVertices face).length = 4 := by
  rcases face with ⟨d, t, s, sz⟩
  cases d <;> rfl

/-- The index blocks appended by the assembly loop: one
`generateFaceIndices` block per face, the base advancing by 4. -/
def faceIndexBlocks : ℕ → ℕ → List ℕ
  | 0, _ => []
  | n + 1, b => generateFaceIndices b ++ faceIndexBlocks n (b + 4)

lemma assembleBuffers_fold (faces : List MergedFace) :
    ∀ (vs : List Vertex) (idx : List ℕ) (b : ℕ),
      faces.foldl
        (fun (acc : List Vertex × List ℕ × ℕ) face =>
          (acc.1 ++ generateMergedFaceVertices face,
           acc.2.1 ++ generateFaceIndices acc.2.2,
           acc.2.2 + 4)) (vs, idx, b) =
      (vs ++ faces.flatMap generateMergedFaceVertices,
       idx ++ faceIndexBlocks faces.length b,
       b + 4 * faces.length) := by
  induction faces with
  | nil => intro vs idx b; simp [faceIndexBlocks]
  | cons face faces ih =>
      intro vs idx b
      simp only [List.foldl_cons]
      rw [ih]
      simp only [List.flatMap_cons, List.length_cons, faceIndexBlocks, Prod.mk.injEq]
      refine ⟨by simp [List.append_assoc], by simp [List.append_assoc], by omega⟩

lemma assembleBuffers_eq (faces : List MergedFace) :
    assembleBuffers faces =
      (faces.flatMap generateMergedFaceVertices, faceIndexBlocks faces.length 0) := by
  unfold assembleBuffers
  rw [assembleBuffers_fold faces [] [] 0]
  simp

lemma faceIndexBlocks_length (n : ℕ) : ∀ b, (faceIndexBlocks n b).length = 6 * n := by
  induction n with
  | zero => intro b; rfl
  | succ n ih =>
      intro b
      show (generateFaceIndices b ++ faceIndexBlocks n (b + 4)).length = 6 * (n + 1)
      rw [List.length_append, ih (b + 4)]
      show 6 + 6 * n = 6 * (n + 1)
      omega

lemma faceIndexBlocks_extract (n : ℕ) : ∀ (b k : ℕ), k < n →
    ((faceIndexBlocks n b).drop (6 * k)).take 6 = generateFaceIndices (b + 4 * k) := by
  induction n with
  | zero => intro b k hk; omega
  | succ n ih =>
      intro b k hk
      cases k with
      | zero =>
          show ((generateFaceIndices b ++ faceIndexBlocks n (b + 4)).drop (6 * 0)).take 6 =
            generateFaceIndices (b + 4 * 0)
          simp [generateFaceIndices]
      | succ k =>
          show ((generateFaceIndices b ++ faceIndexBlocks n (b + 4)).drop
            (6 * (k + 1))).take 6 = generateFaceIndices (b + 4 * (k + 1))
          have hdrop : (generateFaceIndices b ++ faceIndexBlocks n (b + 4)).drop
              (6 * (k + 1)) = (faceIndexBlocks n (b + 4)).drop (6 * k) := by
            have e1 : 6 * (k + 1) = (generateFaceIndices b).length + 6 * k := by
              simp [generateFaceIndices]
              omega
            rw [e1, List.drop_append]
          rw [hdrop, ih (b + 4) k (by omega)]
          congr 1
          omega

/-- C9: the buffer assembly appends, per face, exactly 4 vertices and the
6-index pattern base, base+1, base+2, base, base+2, base+3 with the base
advancing by 4 per face; hence the index count is 6/4 of the vertex count
and every index of a face's block refers to one of that face's 4 vertices. -/
theorem c9_buffer_shape (faces : List MergedFace) :
    (assembleBuffers faces).1.length = 4 * faces.length ∧
    (assembleBuffers faces).2.length = 6 * faces.length ∧
    4 * (assembleBuffers faces).2.length = 6 * (assembleBuffers faces).1.length ∧
    ∀ k, k < faces.length →
      (((assembleBuffers faces).2.drop (6 * k)).take 6 =
        [4 * k, 4 * k + 1, 4 * k + 2, 4 * k, 4 * k + 2, 4 * k + 3] ∧
      ∀ i ∈ ((assembleBuffers faces).2.drop (6 * k)).take 6,
        4 * k ≤ i ∧ i < 4 * k + 4) := by
  rw [assembleBuffers_eq]
  have hv : (faces.flatMap generateMergedFaceVertices).length = 4 * faces.length := by
    rw [List.length_flatMap]
    have : (faces.map (List.length ∘ generateMergedFaceVertices)) =
        faces.map (fun _ => 4) := by
      apply List.map_congr_left
      intro f _
      exact generateMergedFaceVertices_length f
    rw [this, sum_map_const_four]
  refine ⟨hv, faceIndexBlocks_length faces.length 0, ?_, ?_⟩
  · rw [hv, faceIndexBlocks_length faces.length 0]
    omega
  · intro k hk
    have hext := faceIndexBlocks_extract faces.length 0 k hk
    rw [Nat.zero_add] at hext
    constructor
    · rw [hext]
      rfl
    · intro i hi
      rw [hext] at hi
      simp only [generateFaceIndices, List.mem_cons, List.not_mem_nil, or_false] at hi
      rcases hi with rfl | rfl | rfl | rfl | rfl | rfl
      all_goals omega

/-- Witness for C9 at a concrete two-face list. -/
theorem c9_buffer_shape_witness :
    (((assembleBuffers
        [MergedFace.mk Direction.Front VoxelType.Stone (0, 0, 0) (1, 1),
         MergedFace.mk Direction.Top VoxelType.Dirt (2, 3, 4) (2, 5)]).2.drop
        (6 * 1)).take 6 =
      [4 * 1, 4 * 1 + 1, 4 * 1 + 2, 4 * 1, 4 * 1 + 2, 4 * 1 + 3]) :=
  ((c9_buffer_shape
    [MergedFace.mk Direction.Front VoxelType.Stone (0, 0, 0) (1, 1),
     MergedFace.mk Direction.Top VoxelType.Dirt (2, 3, 4) (2, 5)]).2.2.2 1
    (by decide)).1

end VoxelSpec
